import Mathlib

/-!
Shallow embedding of the DevSprint progress-tracking backend
(`src/backend/main.py`) and proofs about its core engine:
story-status rollup, burndown series construction, snapshot capture,
GitHub webhook reference linking, and the sprint-progress simulator.

Dates are modelled as `Int` (days since an arbitrary epoch), so
`(d2 - d1).days` in Python becomes `d2 - d1`.  Machine integers in the
store are modelled as `Int`.  The float arithmetic of the ideal burndown
line (Python true division) is modelled exactly over `ℚ`.
-/

namespace DevSprint

/-- The `TaskStatus` enum from the source. -/
inductive TaskStatus where
  | TODO
  | IN_PROGRESS
  | CODE_REVIEW
  | DONE
deriving DecidableEq, Repr

/-- The `UserStoryStatus` enum from the source. -/
inductive StoryStatus where
  | PLANNED
  | ACTIVE
  | DONE
deriving DecidableEq, Repr

/-- The `SprintStatus` enum from the source. -/
inductive SprintStatus where
  | ACTIVE
  | CLOSED
deriving DecidableEq, Repr

/-- Row of the `sprints` table. -/
structure Sprint where
  id : Nat
  name : String
  start_date : Int
  end_date : Int
  status : SprintStatus
deriving DecidableEq, Repr

/-- Row of the `user_stories` table. -/
structure Story where
  id : Nat
  sprint_id : Option Nat
  title : String
  story_points : Int
  priority : Int
  is_tech_debt : Bool
  status : StoryStatus
deriving DecidableEq, Repr

/-- Row of the `tasks` table. -/
structure Task where
  id : Nat
  story_id : Nat
  title : String
  status : TaskStatus
  story_points : Int
  is_tech_debt : Bool
  assignee : Option String
deriving DecidableEq, Repr

/-- Row of the `github_links` table. -/
structure GitHubLink where
  id : Nat
  task_id : Nat
  commit_hash : Option String
  pr_url : Option String
  repo_name : Option String
deriving DecidableEq, Repr

/-- Row of the `burndown_snapshots` table. -/
structure Snapshot where
  id : Nat
  sprint_id : Nat
  snapshot_date : Int
  remaining_points : Int
deriving DecidableEq, Repr

/-- The relational store: all five tables plus an id sequence used for
    newly inserted rows. -/
structure DB where
  sprints : List Sprint
  stories : List Story
  tasks : List Task
  links : List GitHubLink
  snapshots : List Snapshot
  next_id : Nat
deriving DecidableEq, Repr

/-- The `story.tasks` relationship: the tasks whose `story_id` is this story. -/
def storyTasks (db : DB) (sid : Nat) : List Task :=
  db.tasks.filter (fun t => t.story_id = sid)

/-- The `sprint.stories` relationship. -/
def sprintStories (db : DB) (spid : Nat) : List Story :=
  db.stories.filter (fun s => s.sprint_id = some spid)

/-- The sprint's snapshot rows (`filter(BurndownSnapshotModel.sprint_id == sprint.id)`). -/
def sprintSnapshots (db : DB) (spid : Nat) : List Snapshot :=
  db.snapshots.filter (fun s => s.sprint_id = spid)

/-- The `sync_story_status` from the source, acting on the story object given
    its `story.tasks` collection:
    no tasks → unchanged; all DONE → DONE; any IN_PROGRESS or
    CODE_REVIEW → ACTIVE; otherwise PLANNED. -/
def sync_story_status (tasks : List Task) (story : Story) : Story :=
  if tasks = [] then story
  else if ∀ t ∈ tasks, t.status = TaskStatus.DONE then
    { story with status := StoryStatus.DONE }
  else if ∃ t ∈ tasks,
      t.status = TaskStatus.IN_PROGRESS ∨ t.status = TaskStatus.CODE_REVIEW then
    { story with status := StoryStatus.ACTIVE }
  else
    { story with status := StoryStatus.PLANNED }

/-- The `sync_story_status` lifted to the store: recompute the status of the
    story with id `sid` from its current tasks. -/
def syncStoryInDb (db : DB) (sid : Nat) : DB :=
  { db with stories :=
      db.stories.map (fun s =>
        if s.id = sid then sync_story_status (storyTasks db sid) s else s) }

end DevSprint

namespace DevSprint

/-! ### Reference extraction (`commit_ref_pattern = re.compile(r"ref\s+#(\d+)", re.IGNORECASE)`)

The regex is embedded as a direct scanner: at each position try to match
`ref` (case-insensitive) followed by one or more whitespace characters,
then `#` and a maximal run of one or more digits; on a match, emit the
digit run's value and resume after the match (`findall` semantics:
leftmost, non-overlapping).  For this pattern the greedy `\s+` and `\d+`
never backtrack, because `#` is not whitespace and the digit run is
followed by the rest of the match verbatim. -/

/-- ASCII part of the `\s` class used by the pattern. -/
def isPySpace (c : Char) : Bool :=
  c == ' ' || c == '\t' || c == '\n' || c == '\r' || c == '\x0b' || c == '\x0c'

/-- Parse a digit run as a decimal number (`int(match)`). -/
def digitsToNat (ds : List Char) : Nat :=
  ds.foldl (fun a c => a * 10 + (c.toNat - 48)) 0

/-- Try to match `ref\s+#(\d+)` at the head of the character list;
    on success return the captured number and the characters after the
    match. -/
def matchRefAt : List Char → Option (Nat × List Char)
  | c1 :: c2 :: c3 :: rest =>
    if c1.toLower = 'r' ∧ c2.toLower = 'e' ∧ c3.toLower = 'f' then
      let ws := rest.takeWhile isPySpace
      if ws = [] then none
      else
        match rest.dropWhile isPySpace with
        | '#' :: rest3 =>
          let ds := rest3.takeWhile Char.isDigit
          if ds = [] then none
          else some (digitsToNat ds, rest3.dropWhile Char.isDigit)
        | _ => none
    else none
  | _ => none

/-- The `commit_ref_pattern.findall` over a character list, with a fuel
    argument for structural recursion; the scan consumes at least one
    character per step, so `l.length` fuel is always enough. -/
def scanRefsAux : Nat → List Char → List Nat
  | 0, _ => []
  | _ + 1, [] => []
  | fuel + 1, c :: cs =>
    match matchRefAt (c :: cs) with
    | some (v, rest) => v :: scanRefsAux fuel rest
    | none => scanRefsAux fuel cs

/-- The `commit_ref_pattern.findall` over a character list. -/
def scanRefs (l : List Char) : List Nat :=
  scanRefsAux l.length l

/-- The `extractTaskIds`: the integers produced by `commit_ref_pattern.findall(text)`. -/
def extractTaskIds (text : String) : List Nat :=
  scanRefs text.toList

/-- A reference token `ref\s+#\d+` occurs at the head of `l`. -/
def refTokenFrom (l : List Char) : Prop :=
  ∃ c1 c2 c3 ws ds rest,
    l = c1 :: c2 :: c3 :: (ws ++ '#' :: (ds ++ rest)) ∧
    c1.toLower = 'r' ∧ c2.toLower = 'e' ∧ c3.toLower = 'f' ∧
    ws ≠ [] ∧ (∀ c ∈ ws, isPySpace c) ∧
    ds ≠ [] ∧ (∀ c ∈ ds, c.isDigit)

/-- A reference token occurs somewhere in `l`. -/
def hasRefToken (l : List Char) : Prop :=
  ∃ i, refTokenFrom (l.drop i)

/-! ### Snapshot capture (`calculate_remaining_points`, `capture_burndown_snapshots`) -/

/-- The `calculate_remaining_points`: sum of story points of the sprint's
    stories whose status is not DONE (`coalesce(sum, 0)`). -/
def calculate_remaining_points (db : DB) (spid : Nat) : Int :=
  ((db.stories.filter (fun s =>
      s.sprint_id = some spid ∧ s.status ≠ StoryStatus.DONE)).map
    Story.story_points).sum

/-- The `query(SprintModel).filter(status == ACTIVE).all()`, in store order. -/
def activeSprints (db : DB) : List Sprint :=
  db.sprints.filter (fun sp => sp.status = SprintStatus.ACTIVE)

/-- Overwrite `remaining_points` of the first snapshot row matching
    `(sprint_id, snapshot_date)` — `query(...).first()` followed by a
    field assignment. -/
def updateFirstSnapshot : List Snapshot → Nat → Int → Int → List Snapshot
  | [], _, _, _ => []
  | s :: rest, spid, d, v =>
    if s.sprint_id = spid ∧ s.snapshot_date = d then
      { s with remaining_points := v } :: rest
    else s :: updateFirstSnapshot rest spid d v

/-- One iteration of the capture loop: upsert the snapshot of one sprint
    for the target date. -/
def captureForSprint (db : DB) (d : Int) (spid : Nat) : DB :=
  if ∃ s ∈ db.snapshots, s.sprint_id = spid ∧ s.snapshot_date = d then
    { db with snapshots := updateFirstSnapshot db.snapshots spid d (calculate_remaining_points db spid) }
  else
    { db with
        snapshots := db.snapshots ++ [⟨db.next_id, spid, d, calculate_remaining_points db spid⟩],
        next_id := db.next_id + 1 }

/-- The state change of `capture_burndown_snapshots` for a resolved
    target date: upsert one snapshot per ACTIVE sprint. -/
def captureDB (db : DB) (target : Int) : DB :=
  (activeSprints db).foldl (fun acc sp => captureForSprint acc target sp.id) db

/-- The `capture_burndown_snapshots(for_date)`: the target date defaults to
    `get_today()`; the snapshots of every ACTIVE sprint are upserted.  The
    Python function body contains no `return` statement, so the call
    evaluates to `None`; the second component models that returned value,
    which is therefore always `none` and never a count. -/
def capture_burndown_snapshots (db : DB) (for_date : Option Int) (today : Int) :
    DB × Option Nat :=
  (captureDB db (for_date.getD today), none)

/-- The snapshot rows stored for one `(sprint, date)` pair. -/
def snapRows (db : DB) (spid : Nat) (d : Int) : List Snapshot :=
  db.snapshots.filter (fun s => s.sprint_id = spid ∧ s.snapshot_date = d)

/-- The at-most-one-snapshot-per-`(sprint, date)` store invariant. -/
def SnapInv (db : DB) : Prop :=
  ∀ spid d, (snapRows db spid d).length ≤ 1

/-- Concrete store: one ACTIVE sprint over days 0–7 holding a single
    5-point PLANNED story; no tasks, links or snapshots yet. -/
def dbCap : DB :=
  { sprints := [⟨1, "Sprint 1", 0, 7, SprintStatus.ACTIVE⟩],
    stories := [⟨1, some 1, "Story 1", 5, 1, false, StoryStatus.PLANNED⟩],
    tasks := [], links := [], snapshots := [], next_id := 2 }

/-! ### Burndown engine (`build_burndown_payload`)

The Python loop computes the ideal line with float true division; that
arithmetic is modelled exactly over `ℚ`.  All `actual` values are
integers (snapshot `remaining_points` or the live remaining figure), so
`actual` is kept as `Int`. -/

/-- One entry of the produced burndown series. -/
structure BurndownPoint where
  day : String
  ideal : ℚ
  actual : Int
deriving DecidableEq, Repr

/-- The `snapshot_map` lookup: rows are sorted by `snapshot_date` (a stable
    sort) and folded into a dict keyed by date, so among rows with the
    same date the last one in store order wins. -/
def snapshotLookup (snaps : List Snapshot) (d : Int) : Option Int :=
  ((snaps.filter (fun s => s.snapshot_date = d)).getLast?).map
    Snapshot.remaining_points

/-- The `for index in range(total_days)` loop of `build_burndown_payload`:
    `n` counts the entries still to produce, `i` is the current index and
    `last` the carried `last_actual`. -/
def burnLoop (lookup : Int → Option Int) (tp : Int) (td : Nat) (start : Int) :
    Nat → Nat → Int → List BurndownPoint
  | 0, _, _ => []
  | n + 1, i, last =>
    { day := "Day " ++ toString (i + 1),
      ideal := max ((tp : ℚ) - (i : ℚ) * (tp : ℚ) / ((max (td - 1) 1 : Nat) : ℚ)) 0,
      actual := max ((lookup (start + (i : Int))).getD last) 0 } ::
      burnLoop lookup tp td start n (i + 1) ((lookup (start + (i : Int))).getD last)

/-- The `burndown_points[-1].actual = ...`: overwrite the last entry's actual. -/
def setLastActual : List BurndownPoint → Int → List BurndownPoint
  | [], _ => []
  | [p], v => [{ p with actual := v }]
  | p :: q :: rest, v => p :: setLastActual (q :: rest) v

/-- The `total_days = max((end_date - start_date).days + 1, 1)`. -/
def totalDays (sprint : Sprint) : Int :=
  max ((sprint.end_date - sprint.start_date) + 1) 1

/-- The `total_points = max(sum story.story_points for story in sprint.stories, 0)`. -/
def totalPoints (db : DB) (sprint : Sprint) : Int :=
  max (((sprintStories db sprint.id).map Story.story_points).sum) 0

/-- The series produced by the `for index in range(total_days)` loop. -/
def burnPoints (db : DB) (sprint : Sprint) : List BurndownPoint :=
  burnLoop (snapshotLookup (sprintSnapshots db sprint.id)) (totalPoints db sprint)
    (totalDays sprint).toNat sprint.start_date (totalDays sprint).toNat 0
    (totalPoints db sprint)

/-- The `build_burndown_payload` from the source.  The sprint's dates are
    non-nullable in the store model, so the early `return []` for missing
    dates does not arise.  When the sprint has no snapshots (and the series
    is nonempty), the last entry's `actual` is overwritten with the live
    remaining-points figure. -/
def build_burndown_payload (db : DB) (sprint : Sprint) : List BurndownPoint :=
  if burnPoints db sprint ≠ [] ∧ sprintSnapshots db sprint.id = [] then
    setLastActual (burnPoints db sprint) (calculate_remaining_points db sprint.id)
  else burnPoints db sprint

/-- The carried `last_actual` value after the loop has processed the days
    with indices `i, i+1, …, i+j` (seeded with `seed` before index `i`). -/
def lastActualFrom (lookup : Int → Option Int) (start : Int) (i : Nat)
    (seed : Int) : Nat → Int
  | 0 => (lookup (start + (i : Int))).getD seed
  | j + 1 =>
    (lookup (start + (i : Int) + (j : Int) + 1)).getD
      (lastActualFrom lookup start i seed j)

/-- Sprint and store for the C3 counterexample: the sprint covers days
    10–11, its only story counts 7 points, and the only snapshot is dated
    day 5 — before the sprint's start. -/
def spPre : Sprint := ⟨1, "S", 10, 11, SprintStatus.ACTIVE⟩

/-- Store of the C3 counterexample (see `spPre`). -/
def dbPre : DB :=
  { sprints := [spPre],
    stories := [⟨1, some 1, "A", 7, 1, false, StoryStatus.PLANNED⟩],
    tasks := [], links := [],
    snapshots := [⟨1, 1, 5, 3⟩],
    next_id := 2 }

/-- Sprint for the C3 witness: covers days 0 to 2. -/
def spSnap : Sprint := ⟨1, "S", 0, 2, SprintStatus.ACTIVE⟩

/-- Store for the C3 witness: one 5-point story and one snapshot on day 1
    recording 3 remaining points. -/
def dbSnap : DB :=
  { sprints := [spSnap],
    stories := [⟨1, some 1, "A", 5, 1, false, StoryStatus.PLANNED⟩],
    tasks := [], links := [],
    snapshots := [⟨1, 1, 1, 3⟩],
    next_id := 2 }

/-! ### GitHub webhook (`github_webhook`, `link_commit_to_task`, `link_pr_to_task`) -/

/-- One element of `payload["commits"]`; the `commit.get("message", "")`
    default is already applied, `commit.get("id")` may be absent. -/
structure WebhookCommit where
  id : Option String
  message : String
deriving DecidableEq, Repr

/-- The `payload["pull_request"]`; the `''` defaults of `get('title', '')` and
    `get('body', '')` are already applied. -/
structure WebhookPR where
  title : String
  body : String
  html_url : Option String
deriving DecidableEq, Repr

/-- The parts of the webhook payload the handler reads. -/
structure WebhookPayload where
  repo_name : Option String
  commits : List WebhookCommit
  pull_request : Option WebhookPR
deriving DecidableEq, Repr

/-- The `link_commit_to_task`: add a commit SourceLink row; the task is untouched. -/
def link_commit_to_task (db : DB) (tid : Nat) (commit_hash : Option String)
    (repo_name : Option String) : DB :=
  { db with
      links := db.links ++ [⟨db.next_id, tid, commit_hash, none, repo_name⟩],
      next_id := db.next_id + 1 }

/-- Set one task's status (`task.status = ...`). -/
def setTaskStatus (db : DB) (tid : Nat) (st : TaskStatus) : DB :=
  { db with tasks := db.tasks.map (fun t =>
      if t.id = tid then { t with status := st } else t) }

/-- The `link_pr_to_task`: add a PR SourceLink row and force the task to
    CODE_REVIEW. -/
def link_pr_to_task (db : DB) (tid : Nat) (pr_url : Option String)
    (repo_name : Option String) : DB :=
  let db1 := setTaskStatus db tid TaskStatus.CODE_REVIEW
  { db1 with
      links := db1.links ++ [⟨db1.next_id, tid, none, pr_url, repo_name⟩],
      next_id := db1.next_id + 1 }

/-- The `github_webhook`: for each commit, link every referenced existing task;
    then, if a pull request is present, link every task referenced in
    title+body and force it to CODE_REVIEW.  Unknown task numbers are
    skipped.  Returns the new store and the `linked_tasks` list. -/
def github_webhook (db : DB) (payload : WebhookPayload) : DB × List Nat :=
  let step1 := payload.commits.foldl (fun acc commit =>
    (extractTaskIds commit.message).foldl (fun acc2 n =>
      if ∃ t ∈ acc2.1.tasks, t.id = n then
        (link_commit_to_task acc2.1 n commit.id payload.repo_name, acc2.2 ++ [n])
      else acc2) acc) (db, ([] : List Nat))
  match payload.pull_request with
  | none => step1
  | some pr =>
    (extractTaskIds (pr.title ++ "\n" ++ pr.body)).foldl (fun acc2 n =>
      if ∃ t ∈ acc2.1.tasks, t.id = n then
        (link_pr_to_task acc2.1 n pr.html_url payload.repo_name, acc2.2 ++ [n])
      else acc2) step1

/-- All task numbers referenced by the payload, in processing order. -/
def allRefs (payload : WebhookPayload) : List Nat :=
  (payload.commits.map (fun c => extractTaskIds c.message)).flatten ++
    (match payload.pull_request with
     | none => []
     | some pr => extractTaskIds (pr.title ++ "\n" ++ pr.body))

/-- The task numbers referenced by the pull-request text. -/
def prRefs (payload : WebhookPayload) : List Nat :=
  match payload.pull_request with
  | none => []
  | some pr => extractTaskIds (pr.title ++ "\n" ++ pr.body)

/-- The ids of the stored tasks. -/
def taskIds (db : DB) : List Nat := db.tasks.map Task.id

/-- The status of the task with id `n` (`db.get(TaskModel, n)`). -/
def statusOf (db : DB) (n : Nat) : Option TaskStatus :=
  (db.tasks.find? (fun t => t.id = n)).map Task.status

/-! ### Task CRUD endpoints (`create_task`, `update_task`, `delete_task`) -/

/-- The `TaskCreate` request body. -/
structure TaskCreate where
  title : String
  story_id : Nat
  story_points : Int
  status : TaskStatus
  is_tech_debt : Bool
  assignee : Option String
deriving DecidableEq, Repr

/-- The `TaskUpdate` request body with `exclude_unset` semantics: `none`
    means the field was absent. -/
structure TaskUpdate where
  title : Option String
  status : Option TaskStatus
  story_points : Option Int
  is_tech_debt : Option Bool
  assignee : Option (Option String)
deriving DecidableEq, Repr

/-- Apply the present fields of a `TaskUpdate` (`setattr` loop). -/
def applyTaskUpdate (patch : TaskUpdate) (t : Task) : Task :=
  { t with
      title := patch.title.getD t.title,
      status := patch.status.getD t.status,
      story_points := patch.story_points.getD t.story_points,
      is_tech_debt := patch.is_tech_debt.getD t.is_tech_debt,
      assignee := patch.assignee.getD t.assignee }

/-- The `POST /api/tasks`: 404 when the story is missing; otherwise insert the
    task and re-derive the story's status. -/
def create_task (db : DB) (payload : TaskCreate) : Option DB :=
  if ∃ s ∈ db.stories, s.id = payload.story_id then
    some (syncStoryInDb
      { db with
          tasks := db.tasks ++ [⟨db.next_id, payload.story_id, payload.title,
            payload.status, payload.story_points, payload.is_tech_debt,
            payload.assignee⟩],
          next_id := db.next_id + 1 }
      payload.story_id)
  else none

/-- The `PATCH /api/tasks/:id`: 404 when the task is missing; otherwise apply
    the patch, then re-derive the owning story's status when that story
    exists. -/
def update_task (db : DB) (tid : Nat) (patch : TaskUpdate) : Option DB :=
  (db.tasks.find? (fun t => t.id = tid)).map (fun task =>
    if ∃ s ∈ db.stories, s.id = task.story_id then
      syncStoryInDb
        { db with tasks := db.tasks.map (fun t =>
            if t.id = tid then applyTaskUpdate patch t else t) }
        task.story_id
    else
      { db with tasks := db.tasks.map (fun t =>
          if t.id = tid then applyTaskUpdate patch t else t) })

/-- The `DELETE /api/tasks/:id`: 404 when the task is missing; otherwise
    delete the row (links cascade), then re-derive the owning story's
    status when that story exists. -/
def delete_task (db : DB) (tid : Nat) : Option DB :=
  (db.tasks.find? (fun t => t.id = tid)).map (fun task =>
    if ∃ s ∈ db.stories, s.id = task.story_id then
      syncStoryInDb
        { db with
            tasks := db.tasks.erase task,
            links := db.links.filter (fun l => ¬ l.task_id = task.id) }
        task.story_id
    else
      { db with
          tasks := db.tasks.erase task,
          links := db.links.filter (fun l => ¬ l.task_id = task.id) })

/-- The §4.2 invariant at one story id: the persisted status equals the
    rollup of the story's tasks. -/
def StoryRollupOk (db : DB) (sid : Nat) : Prop :=
  ∀ s ∈ db.stories, s.id = sid →
    s.status = (sync_story_status (storyTasks db sid) s).status

/-- Store for the C5 counterexample: a DONE story whose single task is
    DONE, so the rollup invariant holds before the webhook call. -/
def dbWh : DB :=
  { sprints := [],
    stories := [⟨1, none, "S", 5, 1, false, StoryStatus.DONE⟩],
    tasks := [⟨1, 1, "T", TaskStatus.DONE, 5, false, none⟩],
    links := [], snapshots := [], next_id := 2 }

/-- Webhook payload for the C5 counterexample: a pull request whose body
    references task 1. -/
def whPayload : WebhookPayload :=
  { repo_name := some "octo/repo",
    commits := [],
    pull_request := some ⟨"Fix", "ref #1 done", some "https://x/pr/1"⟩ }

/-! ### Simulation driver (`simulate_progress`, `simulate_set_remaining_days`) -/

/-- The `order_by(start_date).first()`: the first sprint with the least start
    date (stable: earlier rows win ties). -/
def minSprint : List Sprint → Option Sprint
  | [] => none
  | s :: rest =>
    match minSprint rest with
    | none => some s
    | some u => if s.start_date ≤ u.start_date then some s else some u

/-- The `order_by(is_tech_debt.desc(), id).first()`: first by (tech-debt
    first, then lowest id). -/
def minTask : List Task → Option Task
  | [] => none
  | t :: rest =>
    match minTask rest with
    | none => some t
    | some u =>
      if (if t.is_tech_debt then 0 else 1) < (if u.is_tech_debt then 0 else 1) ∨
         ((if t.is_tech_debt then 0 else 1) = (if u.is_tech_debt then 0 else 1) ∧
          t.id ≤ u.id) then some t
      else some u

/-- The `order_by(priority, id).first()`: first by (lowest priority number,
    then lowest id). -/
def minStory : List Story → Option Story
  | [] => none
  | s :: rest =>
    match minStory rest with
    | none => some s
    | some u =>
      if s.priority < u.priority ∨ (s.priority = u.priority ∧ s.id ≤ u.id)
      then some s
      else some u

/-- The tasks of the sprint with a given status: the
    `join(UserStoryModel)` plus status filter of `pick_task`. -/
def sprintTaskPool (db : DB) (spid : Nat) (st : TaskStatus) : List Task :=
  db.tasks.filter (fun t => t.status = st ∧
    ∃ s ∈ db.stories, s.id = t.story_id ∧ s.sprint_id = some spid)

/-- The `pick_task(status)` of `simulate_progress`. -/
def pick_task (db : DB) (spid : Nat) (st : TaskStatus) : Option Task :=
  minTask (sprintTaskPool db spid st)

/-- The `ensure_tech_debt_task`: attach a fixed 2-point TODO tech-debt task to
    the sprint's lowest-priority story, creating a generic 5-point
    priority-1 tech-debt story first when the sprint has none. -/
def ensure_tech_debt_task (db : DB) (spid : Nat) : DB :=
  match minStory (sprintStories db spid) with
  | some story =>
    { db with
        tasks := db.tasks ++
          [⟨db.next_id, story.id, "处理技术债务项", TaskStatus.TODO, 2, true, none⟩],
        next_id := db.next_id + 1 }
  | none =>
    { db with
        stories := db.stories ++
          [⟨db.next_id, some spid, "Tech Debt Fixes", 5, 1, true, StoryStatus.PLANNED⟩],
        tasks := db.tasks ++
          [⟨db.next_id + 1, db.next_id, "处理技术债务项", TaskStatus.TODO, 2, true, none⟩],
        next_id := db.next_id + 2 }

/-- The `simulate_progress`: act on the earliest-start ACTIVE sprint; first
    matching rule wins: CODE_REVIEW→DONE, else IN_PROGRESS→CODE_REVIEW,
    else TODO→IN_PROGRESS, else synthesize a tech-debt task.  After a
    transition the affected story's status is re-derived. -/
def simulate_progress (db : DB) : DB :=
  match minSprint (activeSprints db) with
  | none => db
  | some sprint =>
    match pick_task db sprint.id TaskStatus.CODE_REVIEW with
    | some t =>
      let db1 := setTaskStatus db t.id TaskStatus.DONE
      if ∃ s ∈ db1.stories, s.id = t.story_id
      then syncStoryInDb db1 t.story_id else db1
    | none =>
      match pick_task db sprint.id TaskStatus.IN_PROGRESS with
      | some t =>
        let db1 := setTaskStatus db t.id TaskStatus.CODE_REVIEW
        if ∃ s ∈ db1.stories, s.id = t.story_id
        then syncStoryInDb db1 t.story_id else db1
      | none =>
        match pick_task db sprint.id TaskStatus.TODO with
        | some t =>
          let db1 := setTaskStatus db t.id TaskStatus.IN_PROGRESS
          if ∃ s ∈ db1.stories, s.id = t.story_id
          then syncStoryInDb db1 t.story_id else db1
        | none => ensure_tech_debt_task db sprint.id

/-- The `simulate_set_remaining_days`: 400 on a negative target, 404 when no
    ACTIVE sprint exists; otherwise set the clock offset in one step so
    that `(end_date - now).days` equals the target, and capture snapshots
    at the new current date.  Returns `(offset, current_day, store)`. -/
def simulate_set_remaining_days (db : DB) (realToday : Int)
    (remaining_days : Int) : Except Nat (Int × Int × DB) :=
  if remaining_days < 0 then Except.error 400
  else
    match minSprint (activeSprints db) with
    | none => Except.error 404
    | some sprint =>
      Except.ok ((sprint.end_date - realToday) - remaining_days,
        realToday + ((sprint.end_date - realToday) - remaining_days),
        (capture_burndown_snapshots db
          (some (realToday + ((sprint.end_date - realToday) - remaining_days)))
          realToday).1)

/-- Store for the C7 counterexample: two ACTIVE sprints. -/
def dbTwo : DB :=
  { sprints := [⟨1, "A", 0, 5, SprintStatus.ACTIVE⟩,
                ⟨2, "B", 1, 6, SprintStatus.ACTIVE⟩],
    stories := [], tasks := [], links := [], snapshots := [], next_id := 3 }

/-- The lexicographic order of `order_by(is_tech_debt.desc(), id)`:
    tech-debt tasks first, then lowest id. -/
def taskLE (t u : Task) : Prop :=
  (if t.is_tech_debt then 0 else 1 : Nat) < (if u.is_tech_debt then 0 else 1) ∨
  ((if t.is_tech_debt then 0 else 1 : Nat) = (if u.is_tech_debt then 0 else 1) ∧
    t.id ≤ u.id)

/-- A task belongs to the sprint: its story exists and is attached to the
    sprint (the join of `pick_task`). -/
def taskInSprint (db : DB) (spid : Nat) (t : Task) : Prop :=
  ∃ s ∈ db.stories, s.id = t.story_id ∧ s.sprint_id = some spid

/-- Store for the C4 witness: one ACTIVE sprint, one story, one TODO task. -/
def dbSim : DB :=
  { sprints := [⟨1, "S", 0, 7, SprintStatus.ACTIVE⟩],
    stories := [⟨1, some 1, "A", 5, 1, false, StoryStatus.PLANNED⟩],
    tasks := [⟨1, 1, "T", TaskStatus.TODO, 5, false, none⟩],
    links := [], snapshots := [], next_id := 2 }

theorem takeWhile_all_append {p : Char → Bool} {ws : List Char}
    (hws : ∀ c ∈ ws, p c) {x : Char} (hx : p x = false) (r : List Char) :
    (ws ++ x :: r).takeWhile p = ws ∧ (ws ++ x :: r).dropWhile p = x :: r := by
  induction ws with
  | nil => simp [List.takeWhile, List.dropWhile, hx]
  | cons a l ih =>
    have ha : p a = true := hws a (List.mem_cons_self a l)
    have ih' := ih (fun c hc => hws c (List.mem_cons_of_mem a hc))
    simp [List.takeWhile, List.dropWhile, ha, ih'.1, ih'.2]

theorem matchRefAt_isSome_of_refTokenFrom {l : List Char}
    (h : refTokenFrom l) : matchRefAt l ≠ none := by
  obtain ⟨c1, c2, c3, ws, ds, rest, hl, h1, h2, h3, hwsne, hwsall, hdsne, hdsall⟩ := h
  subst hl
  have hhash : isPySpace '#' = false := by decide
  have hsplit := takeWhile_all_append hwsall hhash (ds ++ rest)
  simp only [matchRefAt]
  rw [if_pos ⟨h1, h2, h3⟩]
  simp only [hsplit.1, hsplit.2]
  rw [if_neg hwsne]
  cases ds with
  | nil => exact absurd rfl hdsne
  | cons d ds' =>
    have hd : d.isDigit = true := hdsall d (List.mem_cons_self d ds')
    simp only [List.cons_append, List.takeWhile, hd]
    intro hc
    exact Option.noConfusion hc

theorem refTokenFrom_of_matchRefAt {l : List Char} {v : Nat} {rest : List Char}
    (h : matchRefAt l = some (v, rest)) : refTokenFrom l := by
  match l with
  | [] => simp [matchRefAt] at h
  | [c1] => simp [matchRefAt] at h
  | [c1, c2] => simp [matchRefAt] at h
  | c1 :: c2 :: c3 :: r =>
    simp only [matchRefAt] at h
    by_cases hc : c1.toLower = 'r' ∧ c2.toLower = 'e' ∧ c3.toLower = 'f'
    · rw [if_pos hc] at h
      by_cases hws : r.takeWhile isPySpace = []
      · simp [hws] at h
      · simp only [hws, if_neg hws] at h
        cases hdw : r.dropWhile isPySpace with
        | nil => rw [hdw] at h; simp at h
        | cons d rest3 =>
          rw [hdw] at h
          by_cases hd : d = '#'
          · subst hd
            by_cases hds : rest3.takeWhile Char.isDigit = []
            · simp [hds] at h
            · refine ⟨c1, c2, c3, r.takeWhile isPySpace,
                rest3.takeWhile Char.isDigit, rest3.dropWhile Char.isDigit,
                ?_, hc.1, hc.2.1, hc.2.2, hws, ?_, hds, ?_⟩
              · have hr : r = r.takeWhile isPySpace ++ r.dropWhile isPySpace :=
                  (r.takeWhile_append_dropWhile isPySpace).symm
                have h3 : rest3 =
                    rest3.takeWhile Char.isDigit ++ rest3.dropWhile Char.isDigit :=
                  (rest3.takeWhile_append_dropWhile Char.isDigit).symm
                rw [List.cons_eq_cons, List.cons_eq_cons, List.cons_eq_cons]
                refine ⟨rfl, rfl, rfl, ?_⟩
                conv_lhs => rw [hr, hdw]
                rw [← h3]
              · intro c hcm
                exact List.mem_takeWhile_imp hcm
              · intro c hcm
                exact List.mem_takeWhile_imp hcm
          · have : ¬ d = '#' := hd
            simp [this] at h
    · rw [if_neg hc] at h
      simp at h

theorem length_dropWhile_le (p : Char → Bool) (l : List Char) :
    (l.dropWhile p).length ≤ l.length := by
  conv_rhs => rw [← l.takeWhile_append_dropWhile p]
  rw [List.length_append]
  omega

theorem matchRefAt_rest_length {l : List Char} {v : Nat} {rest : List Char}
    (h : matchRefAt l = some (v, rest)) : rest.length < l.length := by
  match l with
  | [] => simp [matchRefAt] at h
  | [c1] => simp [matchRefAt] at h
  | [c1, c2] => simp [matchRefAt] at h
  | c1 :: c2 :: c3 :: r =>
    simp only [matchRefAt] at h
    by_cases hc : c1.toLower = 'r' ∧ c2.toLower = 'e' ∧ c3.toLower = 'f'
    · rw [if_pos hc] at h
      by_cases hws : r.takeWhile isPySpace = []
      · simp [hws] at h
      · simp only [hws, if_neg hws] at h
        cases hdw : r.dropWhile isPySpace with
        | nil => rw [hdw] at h; simp at h
        | cons d rest3 =>
          rw [hdw] at h
          by_cases hd : d = '#'
          · subst hd
            by_cases hds : rest3.takeWhile Char.isDigit = []
            · simp [hds] at h
            · simp only [hds, if_neg hds] at h
              have hr : rest = rest3.dropWhile Char.isDigit := by
                cases h; rfl
              have h1 : (rest3.dropWhile Char.isDigit).length ≤ rest3.length :=
                length_dropWhile_le Char.isDigit rest3
              have h2 : ('#' :: rest3).length ≤ r.length := by
                rw [← hdw]
                exact length_dropWhile_le isPySpace r
              have h3 : rest.length = (rest3.dropWhile Char.isDigit).length := by
                rw [hr]
              simp only [List.length_cons] at h2 ⊢
              omega
          · have : ¬ d = '#' := hd
            simp [this] at h
    · rw [if_neg hc] at h
      simp at h

theorem scanRefs_cons_none {c : Char} {cs : List Char}
    (h : matchRefAt (c :: cs) = none) : scanRefs (c :: cs) = scanRefs cs := by
  unfold scanRefs
  simp only [List.length_cons]
  rw [scanRefsAux, h]

theorem scanRefs_cons_some {c : Char} {cs : List Char} {v : Nat}
    {rest : List Char} (h : matchRefAt (c :: cs) = some (v, rest)) :
    scanRefs (c :: cs) = v :: scanRefsAux cs.length rest := by
  unfold scanRefs
  simp only [List.length_cons]
  rw [scanRefsAux, h]

theorem scanRefs_nil_iff (l : List Char) :
    scanRefs l = [] ↔ ∀ i, matchRefAt (l.drop i) = none := by
  induction l with
  | nil =>
    constructor
    · intro _ i
      cases i <;> rfl
    · intro _
      rfl
  | cons c cs ih =>
    constructor
    · intro h i
      cases hm : matchRefAt (c :: cs) with
      | some p =>
        obtain ⟨v, rest⟩ := p
        rw [scanRefs_cons_some hm] at h
        exact absurd h (by simp)
      | none =>
        cases i with
        | zero => exact hm
        | succ j =>
          rw [scanRefs_cons_none hm] at h
          simpa using (ih.mp h) j
    · intro h
      have h0 := h 0
      simp only [List.drop_zero] at h0
      rw [scanRefs_cons_none h0]
      exact ih.mpr (fun i => by simpa using h (i + 1))

end DevSprint

namespace DevSprint

/-- C8. `extractTaskIds` yields `[12, 7]` on `"Ref #12 fix, ref #7 also"`,
    `[]` on `"no refs here"`, preserves duplicates in order of occurrence
    (`"ref #5, Ref #5, REF #3"` ↦ `[5, 5, 3]`), and for every input
    it yields the empty sequence iff no case-insensitive `ref` + whitespace
    + `#` + digit-run token occurs in the text. -/
theorem extractTaskIds_spec :
    extractTaskIds "Ref #12 fix, ref #7 also" = [12, 7] ∧
    extractTaskIds "no refs here" = [] ∧
    extractTaskIds "ref #5, Ref #5, REF #3" = [5, 5, 3] ∧
    ∀ text : String, extractTaskIds text = [] ↔ ¬ hasRefToken text.toList := by
  refine ⟨by decide, by decide, by decide, ?_⟩
  intro text
  unfold extractTaskIds hasRefToken
  rw [scanRefs_nil_iff]
  constructor
  · intro h hex
    obtain ⟨i, hi⟩ := hex
    exact matchRefAt_isSome_of_refTokenFrom hi (h i)
  · intro h i
    cases hm : matchRefAt (text.toList.drop i) with
    | none => rfl
    | some p =>
      obtain ⟨v, rest⟩ := p
      exact absurd ⟨i, refTokenFrom_of_matchRefAt hm⟩ h

/-- C1. For a story with at least one task, `sync_story_status` yields
    DONE iff all tasks are DONE; ACTIVE iff not all are DONE and some task
    is IN_PROGRESS or CODE_REVIEW; PLANNED iff neither; and a story with no
    tasks is returned unchanged. -/
theorem sync_story_status_characterization (tasks : List Task) (story : Story) :
    (tasks = [] → sync_story_status tasks story = story) ∧
    (tasks ≠ [] →
      ((sync_story_status tasks story).status = StoryStatus.DONE ↔
        ∀ t ∈ tasks, t.status = TaskStatus.DONE) ∧
      ((sync_story_status tasks story).status = StoryStatus.ACTIVE ↔
        (¬ ∀ t ∈ tasks, t.status = TaskStatus.DONE) ∧
        ∃ t ∈ tasks, t.status = TaskStatus.IN_PROGRESS ∨
          t.status = TaskStatus.CODE_REVIEW) ∧
      ((sync_story_status tasks story).status = StoryStatus.PLANNED ↔
        (¬ ∀ t ∈ tasks, t.status = TaskStatus.DONE) ∧
        ¬ ∃ t ∈ tasks, t.status = TaskStatus.IN_PROGRESS ∨
          t.status = TaskStatus.CODE_REVIEW)) := by
  constructor
  · intro h
    simp [sync_story_status, h]
  · intro hne
    unfold sync_story_status
    rw [if_neg hne]
    by_cases hall : ∀ t ∈ tasks, t.status = TaskStatus.DONE
    · rw [if_pos hall]
      exact ⟨⟨fun _ => hall, fun _ => rfl⟩,
        ⟨fun h => StoryStatus.noConfusion h, fun h => (h.1 hall).elim⟩,
        ⟨fun h => StoryStatus.noConfusion h, fun h => (h.1 hall).elim⟩⟩
    · rw [if_neg hall]
      by_cases hany : ∃ t ∈ tasks, t.status = TaskStatus.IN_PROGRESS ∨
          t.status = TaskStatus.CODE_REVIEW
      · rw [if_pos hany]
        exact ⟨⟨fun h => StoryStatus.noConfusion h, fun h => (hall h).elim⟩,
          ⟨fun _ => ⟨hall, hany⟩, fun _ => rfl⟩,
          ⟨fun h => StoryStatus.noConfusion h, fun h => (h.2 hany).elim⟩⟩
      · rw [if_neg hany]
        exact ⟨⟨fun h => StoryStatus.noConfusion h, fun h => (hall h).elim⟩,
          ⟨fun h => StoryStatus.noConfusion h, fun h => (hany h.2).elim⟩,
          ⟨fun _ => ⟨hall, hany⟩, fun _ => rfl⟩⟩

/-- Witness for C1 at a concrete story: one task in CODE_REVIEW makes the
    story ACTIVE. -/
theorem sync_story_status_characterization_witness :
    (sync_story_status
      [⟨1, 1, "t", TaskStatus.CODE_REVIEW, 2, false, none⟩]
      ⟨1, none, "s", 5, 1, false, StoryStatus.PLANNED⟩).status =
      StoryStatus.ACTIVE :=
  (((sync_story_status_characterization
      [⟨1, 1, "t", TaskStatus.CODE_REVIEW, 2, false, none⟩]
      ⟨1, none, "s", 5, 1, false, StoryStatus.PLANNED⟩).2
    (by decide)).2.1).mpr (by decide)

end DevSprint

namespace DevSprint

/-! ### Lemmas about snapshot capture -/

theorem captureForSprint_tables (db : DB) (d : Int) (spid : Nat) :
    (captureForSprint db d spid).stories = db.stories ∧
    (captureForSprint db d spid).sprints = db.sprints ∧
    (captureForSprint db d spid).tasks = db.tasks ∧
    (captureForSprint db d spid).links = db.links := by
  unfold captureForSprint
  split <;> exact ⟨rfl, rfl, rfl, rfl⟩

theorem captureDB_tables (db : DB) (target : Int) :
    (captureDB db target).stories = db.stories ∧
    (captureDB db target).sprints = db.sprints ∧
    (captureDB db target).tasks = db.tasks ∧
    (captureDB db target).links = db.links := by
  unfold captureDB
  generalize activeSprints db = sps
  induction sps generalizing db with
  | nil => exact ⟨rfl, rfl, rfl, rfl⟩
  | cons sp rest ih =>
    simp only [List.foldl_cons]
    have h1 := captureForSprint_tables db target sp.id
    have h2 := ih (captureForSprint db target sp.id)
    exact ⟨h2.1.trans h1.1, h2.2.1.trans h1.2.1,
      h2.2.2.1.trans h1.2.2.1, h2.2.2.2.trans h1.2.2.2⟩

theorem calc_eq_of_stories_eq {db db' : DB} (h : db'.stories = db.stories)
    (spid : Nat) :
    calculate_remaining_points db' spid = calculate_remaining_points db spid := by
  unfold calculate_remaining_points
  rw [h]

theorem updateFirstSnapshot_eq_self {l : List Snapshot} {spid : Nat} {d v : Int}
    (h : ∀ s ∈ l, s.sprint_id = spid ∧ s.snapshot_date = d →
      s.remaining_points = v) :
    updateFirstSnapshot l spid d v = l := by
  induction l with
  | nil => rfl
  | cons s rest ih =>
    unfold updateFirstSnapshot
    by_cases hs : s.sprint_id = spid ∧ s.snapshot_date = d
    · rw [if_pos hs]
      have hv : s.remaining_points = v := h s (List.mem_cons_self s rest) hs
      rw [← hv]
    · rw [if_neg hs]
      rw [ih (fun t ht hm => h t (List.mem_cons_of_mem s ht) hm)]

theorem snapFilter_updateFirst_other {l : List Snapshot} {spid : Nat} {d v : Int}
    {spid' : Nat} {d' : Int} (h : ¬ (spid' = spid ∧ d' = d)) :
    (updateFirstSnapshot l spid d v).filter
        (fun s => s.sprint_id = spid' ∧ s.snapshot_date = d') =
      l.filter (fun s => s.sprint_id = spid' ∧ s.snapshot_date = d') := by
  induction l with
  | nil => rfl
  | cons s rest ih =>
    unfold updateFirstSnapshot
    by_cases hs : s.sprint_id = spid ∧ s.snapshot_date = d
    · rw [if_pos hs]
      have hns : ¬ (s.sprint_id = spid' ∧ s.snapshot_date = d') := by
        intro hc
        exact h ⟨hc.1 ▸ hs.1, hc.2 ▸ hs.2⟩
      have hns2 : ¬ (({ s with remaining_points := v } : Snapshot).sprint_id = spid'
          ∧ ({ s with remaining_points := v } : Snapshot).snapshot_date = d') := hns
      rw [List.filter_cons_of_neg (by simpa using hns2),
        List.filter_cons_of_neg (by simpa using hns)]
    · rw [if_neg hs]
      by_cases hmem : s.sprint_id = spid' ∧ s.snapshot_date = d'
      · rw [List.filter_cons_of_pos (by simpa using hmem),
          List.filter_cons_of_pos (by simpa using hmem), ih]
      · rw [List.filter_cons_of_neg (by simpa using hmem),
          List.filter_cons_of_neg (by simpa using hmem), ih]

theorem snapFilter_updateFirst_self {l : List Snapshot} {spid : Nat} {d v : Int}
    (hex : ∃ s ∈ l, s.sprint_id = spid ∧ s.snapshot_date = d)
    (hcnt : (l.filter (fun s =>
      s.sprint_id = spid ∧ s.snapshot_date = d)).length ≤ 1) :
    ∃ s0 : Snapshot,
      (updateFirstSnapshot l spid d v).filter
          (fun s => s.sprint_id = spid ∧ s.snapshot_date = d) = [s0] ∧
      s0.sprint_id = spid ∧ s0.snapshot_date = d ∧ s0.remaining_points = v := by
  induction l with
  | nil =>
    obtain ⟨s, hs, _⟩ := hex
    cases hs
  | cons s rest ih =>
    by_cases hs : s.sprint_id = spid ∧ s.snapshot_date = d
    · unfold updateFirstSnapshot
      rw [if_pos hs]
      have hrest : rest.filter (fun t =>
          t.sprint_id = spid ∧ t.snapshot_date = d) = [] := by
        rw [List.filter_cons_of_pos (by simpa using hs), List.length_cons] at hcnt
        have : (rest.filter (fun t =>
            t.sprint_id = spid ∧ t.snapshot_date = d)).length = 0 := by omega
        exact List.eq_nil_of_length_eq_zero this
      refine ⟨{ s with remaining_points := v }, ?_, hs.1, hs.2, rfl⟩
      have hupd : (({ s with remaining_points := v } : Snapshot).sprint_id = spid
          ∧ ({ s with remaining_points := v } : Snapshot).snapshot_date = d) := hs
      rw [List.filter_cons_of_pos (by simpa using hupd), hrest]
    · unfold updateFirstSnapshot
      rw [if_neg hs]
      obtain ⟨t, ht, hmatch⟩ := hex
      rcases List.mem_cons.mp ht with rfl | htr
      · exact absurd hmatch hs
      have hcnt' : (rest.filter (fun u =>
          u.sprint_id = spid ∧ u.snapshot_date = d)).length ≤ 1 := by
        rw [List.filter_cons_of_neg (by simpa using hs)] at hcnt
        exact hcnt
      obtain ⟨s0, h0, h1, h2, h3⟩ := ih ⟨t, htr, hmatch⟩ hcnt'
      refine ⟨s0, ?_, h1, h2, h3⟩
      rw [List.filter_cons_of_neg (by simpa using hs), h0]

end DevSprint

namespace DevSprint

theorem snapRows_captureForSprint_self (db : DB) (d : Int) (spid : Nat)
    (hcnt : (snapRows db spid d).length ≤ 1) :
    ∃ s0 : Snapshot,
      snapRows (captureForSprint db d spid) spid d = [s0] ∧
      s0.sprint_id = spid ∧ s0.snapshot_date = d ∧
      s0.remaining_points = calculate_remaining_points db spid := by
  unfold captureForSprint snapRows
  by_cases hex : ∃ s ∈ db.snapshots, s.sprint_id = spid ∧ s.snapshot_date = d
  · rw [if_pos hex]
    exact snapFilter_updateFirst_self hex hcnt
  · rw [if_neg hex]
    have hnil : db.snapshots.filter (fun s =>
        s.sprint_id = spid ∧ s.snapshot_date = d) = [] := by
      rw [List.filter_eq_nil]
      intro s hsm
      simp only [decide_eq_true_eq]
      intro hc
      exact hex ⟨s, hsm, hc⟩
    refine ⟨⟨db.next_id, spid, d, calculate_remaining_points db spid⟩,
      ?_, rfl, rfl, rfl⟩
    rw [List.filter_append, hnil]
    simp

theorem snapRows_captureForSprint_other (db : DB) (d : Int) (spid : Nat)
    {spid' : Nat} {d' : Int} (h : ¬ (spid' = spid ∧ d' = d)) :
    snapRows (captureForSprint db d spid) spid' d' = snapRows db spid' d' := by
  unfold captureForSprint snapRows
  by_cases hex : ∃ s ∈ db.snapshots, s.sprint_id = spid ∧ s.snapshot_date = d
  · rw [if_pos hex]
    exact snapFilter_updateFirst_other h
  · rw [if_neg hex]
    rw [List.filter_append]
    have hone : ([(⟨db.next_id, spid, d,
        calculate_remaining_points db spid⟩ : Snapshot)]).filter (fun s =>
        s.sprint_id = spid' ∧ s.snapshot_date = d') = [] := by
      rw [List.filter_eq_nil]
      intro s hsm
      simp only [List.mem_singleton] at hsm
      subst hsm
      simp only [decide_eq_true_eq]
      intro hc
      exact h ⟨hc.1.symm, hc.2.symm⟩
    rw [hone, List.append_nil]

theorem snapRows_captureFold_other (d : Int) (sps : List Sprint) (acc : DB)
    {spid' : Nat} {d' : Int}
    (h : ∀ sp ∈ sps, ¬ (spid' = sp.id ∧ d' = d)) :
    snapRows (sps.foldl (fun a sp => captureForSprint a d sp.id) acc) spid' d' =
      snapRows acc spid' d' := by
  induction sps generalizing acc with
  | nil => rfl
  | cons sp rest ih =>
    simp only [List.foldl_cons]
    rw [ih _ (fun q hq => h q (List.mem_cons_of_mem sp hq)),
      snapRows_captureForSprint_other acc d sp.id (h sp (List.mem_cons_self sp rest))]

theorem snapRows_captureFold_mem (d : Int) (sps : List Sprint) (acc : DB)
    {spid : Nat} (hmem : spid ∈ sps.map Sprint.id)
    (hcnt : (snapRows acc spid d).length ≤ 1) :
    ∃ s0 : Snapshot,
      snapRows (sps.foldl (fun a sp => captureForSprint a d sp.id) acc) spid d
        = [s0] ∧
      s0.sprint_id = spid ∧ s0.snapshot_date = d ∧
      s0.remaining_points = calculate_remaining_points acc spid := by
  induction sps generalizing acc with
  | nil => simp at hmem
  | cons sp rest ih =>
    simp only [List.foldl_cons]
    by_cases hr : spid ∈ rest.map Sprint.id
    · have hst : (captureForSprint acc d sp.id).stories = acc.stories :=
        (captureForSprint_tables acc d sp.id).1
      have hcnt' : (snapRows (captureForSprint acc d sp.id) spid d).length ≤ 1 := by
        by_cases hsame : spid = sp.id
        · subst hsame
          obtain ⟨s0, h0, -, -, -⟩ := snapRows_captureForSprint_self acc d sp.id hcnt
          rw [h0]
          simp
        · rw [snapRows_captureForSprint_other acc d sp.id
            (fun hc => hsame hc.1)]
          exact hcnt
      obtain ⟨s0, h0, h1, h2, h3⟩ := ih (captureForSprint acc d sp.id) hr hcnt'
      exact ⟨s0, h0, h1, h2, h3.trans (calc_eq_of_stories_eq hst spid)⟩
    · have hsame : spid = sp.id := by
        rw [List.map_cons] at hmem
        rcases List.mem_cons.mp hmem with h' | h'
        · exact h'
        · exact absurd h' hr
      subst hsame
      obtain ⟨s0, h0, h1, h2, h3⟩ := snapRows_captureForSprint_self acc d sp.id hcnt
      rw [snapRows_captureFold_other d rest _ (fun q hq hc =>
        hr (List.mem_map.mpr ⟨q, hq, hc.1.symm⟩))]
      exact ⟨s0, h0, h1, h2, h3⟩

theorem captureForSprint_eq_self (db : DB) (d : Int) (spid : Nat)
    (hex : ∃ s ∈ db.snapshots, s.sprint_id = spid ∧ s.snapshot_date = d)
    (hval : ∀ s ∈ db.snapshots, s.sprint_id = spid ∧ s.snapshot_date = d →
      s.remaining_points = calculate_remaining_points db spid) :
    captureForSprint db d spid = db := by
  unfold captureForSprint
  rw [if_pos hex, updateFirstSnapshot_eq_self hval]

theorem captureFold_eq_self (d : Int) (sps : List Sprint) (db : DB)
    (h : ∀ sp ∈ sps,
      (∃ s ∈ db.snapshots, s.sprint_id = sp.id ∧ s.snapshot_date = d) ∧
      (∀ s ∈ db.snapshots, s.sprint_id = sp.id ∧ s.snapshot_date = d →
        s.remaining_points = calculate_remaining_points db sp.id)) :
    sps.foldl (fun a sp => captureForSprint a d sp.id) db = db := by
  induction sps with
  | nil => rfl
  | cons sp rest ih =>
    simp only [List.foldl_cons]
    rw [captureForSprint_eq_self db d sp.id (h sp (List.mem_cons_self sp rest)).1
      (h sp (List.mem_cons_self sp rest)).2]
    exact ih (fun q hq => h q (List.mem_cons_of_mem sp hq))

end DevSprint

namespace DevSprint

/-- C6. Snapshot capture is an idempotent upsert: under the
    at-most-one-row-per-(sprint, date) invariant, running capture twice for
    the same day with unchanged underlying story data produces exactly the
    same store as running it once, and each ACTIVE sprint ends with exactly
    one snapshot row for that date, holding the remaining-points figure
    computed from the stories. -/
theorem capture_idempotent_upsert (db : DB) (d today : Int) (hinv : SnapInv db) :
    (capture_burndown_snapshots
        (capture_burndown_snapshots db (some d) today).1 (some d) today).1 =
      (capture_burndown_snapshots db (some d) today).1 ∧
    ∀ sp ∈ activeSprints db,
      ∃ s0 : Snapshot,
        snapRows (capture_burndown_snapshots db (some d) today).1 sp.id d = [s0] ∧
        s0.remaining_points = calculate_remaining_points db sp.id := by
  have hrows : ∀ sp ∈ activeSprints db, ∃ s0 : Snapshot,
      snapRows (captureDB db d) sp.id d = [s0] ∧ s0.sprint_id = sp.id ∧
      s0.snapshot_date = d ∧
      s0.remaining_points = calculate_remaining_points db sp.id := by
    intro sp hsp
    exact snapRows_captureFold_mem d (activeSprints db) db
      (List.mem_map.mpr ⟨sp, hsp, rfl⟩) (hinv sp.id d)
  have hsprints : (captureDB db d).sprints = db.sprints :=
    (captureDB_tables db d).2.1
  have hstories : (captureDB db d).stories = db.stories :=
    (captureDB_tables db d).1
  have hact : activeSprints (captureDB db d) = activeSprints db := by
    unfold activeSprints
    rw [hsprints]
  constructor
  · show captureDB (captureDB db d) d = captureDB db d
    rw [captureDB, hact]
    apply captureFold_eq_self
    intro sp hsp
    obtain ⟨s0, h0, h1, h2, h3⟩ := hrows sp hsp
    constructor
    · have hmem : s0 ∈ snapRows (captureDB db d) sp.id d := by
        rw [h0]
        exact List.mem_singleton_self s0
      have hm := List.mem_filter.mp hmem
      exact ⟨s0, hm.1, by simpa using hm.2⟩
    · intro s hsm hmatch
      have hmem : s ∈ snapRows (captureDB db d) sp.id d :=
        List.mem_filter.mpr ⟨hsm, by simpa using hmatch⟩
      rw [h0, List.mem_singleton] at hmem
      subst hmem
      rw [h3]
      exact (calc_eq_of_stories_eq hstories sp.id).symm
  · intro sp hsp
    obtain ⟨s0, h0, -, -, h3⟩ := hrows sp hsp
    exact ⟨s0, h0, h3⟩

/-- Witness for C6 at a concrete store. -/
theorem capture_idempotent_upsert_witness :
    (capture_burndown_snapshots
        (capture_burndown_snapshots dbCap (some 3) 0).1 (some 3) 0).1 =
      (capture_burndown_snapshots dbCap (some 3) 0).1 :=
  (capture_idempotent_upsert dbCap 3 0
    (fun spid dd => by simp [snapRows, dbCap])).1

/-- C9 counterexample. On a store with exactly one ACTIVE sprint,
    capture writes a snapshot for that sprint (one sprint updated), yet the
    call returns `None` — not the count `1` the claim asserts. -/
theorem capture_returns_no_count :
    (activeSprints dbCap).length = 1 ∧
    (snapRows (capture_burndown_snapshots dbCap (some 0) 0).1 1 0).length = 1 ∧
    (capture_burndown_snapshots dbCap (some 0) 0).2 = none ∧
    (capture_burndown_snapshots dbCap (some 0) 0).2 ≠ some 1 := by decide

/-- C9 (amended). For every target date, capture upserts exactly one
    snapshot row for every ACTIVE sprint (so the number of sprints updated
    is the number of ACTIVE sprints), but the call returns `None` rather
    than that count. -/
theorem capture_updates_active_sprints (db : DB) (d today : Int)
    (hinv : SnapInv db) :
    (capture_burndown_snapshots db (some d) today).2 = none ∧
    ∀ sp ∈ activeSprints db,
      ∃ s0 : Snapshot,
        snapRows (capture_burndown_snapshots db (some d) today).1 sp.id d = [s0] ∧
        s0.remaining_points = calculate_remaining_points db sp.id := by
  refine ⟨rfl, ?_⟩
  intro sp hsp
  obtain ⟨s0, h0, -, -, h3⟩ := snapRows_captureFold_mem d (activeSprints db) db
    (List.mem_map.mpr ⟨sp, hsp, rfl⟩) (hinv sp.id d)
  exact ⟨s0, h0, h3⟩

/-- Witness for the amended C9 at a concrete store. -/
theorem capture_updates_active_sprints_witness :
    (capture_burndown_snapshots dbCap (some 0) 0).2 = none :=
  (capture_updates_active_sprints dbCap 0 0
    (fun spid dd => by simp [snapRows, dbCap])).1

end DevSprint

namespace DevSprint

theorem burnLoop_length (lookup : Int → Option Int) (tp : Int) (td : Nat)
    (start : Int) (n i : Nat) (last : Int) :
    (burnLoop lookup tp td start n i last).length = n := by
  induction n generalizing i last with
  | zero => rfl
  | succ m ih =>
    rw [burnLoop, List.length_cons, ih]

theorem lastActualFrom_shift (lookup : Int → Option Int) (start : Int)
    (i : Nat) (seed : Int) :
    ∀ j, lastActualFrom lookup start (i + 1)
        ((lookup (start + (i : Int))).getD seed) j =
      lastActualFrom lookup start i seed (j + 1) := by
  intro j
  induction j with
  | zero =>
    show (lookup (start + ((i + 1 : Nat) : Int))).getD _ =
      (lookup (start + (i : Int) + ((0 : Nat) : Int) + 1)).getD _
    congr 1
    push_cast
    ring
  | succ k ih =>
    show (lookup (start + ((i + 1 : Nat) : Int) + (k : Int) + 1)).getD
        (lastActualFrom lookup start (i + 1)
          ((lookup (start + (i : Int))).getD seed) k) =
      (lookup (start + (i : Int) + ((k + 1 : Nat) : Int) + 1)).getD
        (lastActualFrom lookup start i seed (k + 1))
    rw [ih]
    congr 2
    push_cast
    ring

theorem burnLoop_getElem (lookup : Int → Option Int) (tp : Int) (td : Nat)
    (start : Int) :
    ∀ n i last j, j < n →
      (burnLoop lookup tp td start n i last)[j]? =
        some { day := "Day " ++ toString (i + j + 1),
               ideal := max ((tp : ℚ) - ((i + j : Nat) : ℚ) * (tp : ℚ) /
                 ((max (td - 1) 1 : Nat) : ℚ)) 0,
               actual := max (lastActualFrom lookup start i last j) 0 } := by
  intro n
  induction n with
  | zero =>
    intro i last j hj
    omega
  | succ m ih =>
    intro i last j hj
    match j with
    | 0 =>
      show (burnLoop lookup tp td start (m + 1) i last)[0]? = _
      simp only [burnLoop, List.getElem?_cons_zero]
      rfl
    | j' + 1 =>
      show (burnLoop lookup tp td start (m + 1) i last)[j' + 1]? = _
      have hstep : (burnLoop lookup tp td start (m + 1) i last)[j' + 1]? =
          (burnLoop lookup tp td start m (i + 1)
            ((lookup (start + (i : Int))).getD last))[j']? := by
        simp only [burnLoop, List.getElem?_cons_succ]
      rw [hstep, ih (i + 1) ((lookup (start + (i : Int))).getD last) j' (by omega),
        lastActualFrom_shift,
        show i + 1 + j' + 1 = i + (j' + 1) + 1 from by omega,
        show (i + 1 + j' : Nat) = (i + (j' + 1) : Nat) from by omega]

theorem setLastActual_length (l : List BurndownPoint) (v : Int) :
    (setLastActual l v).length = l.length := by
  induction l with
  | nil => rfl
  | cons p rest ih =>
    cases rest with
    | nil => rfl
    | cons q rest2 =>
      show (p :: setLastActual (q :: rest2) v).length = _
      rw [List.length_cons, List.length_cons, ih]

theorem setLastActual_getElem_lt (l : List BurndownPoint) (v : Int) :
    ∀ j, j + 1 < l.length → (setLastActual l v)[j]? = l[j]? := by
  induction l with
  | nil =>
    intro j hj
    simp at hj
  | cons p rest ih =>
    intro j hj
    cases rest with
    | nil => simp at hj
    | cons q rest2 =>
      match j with
      | 0 =>
        show (setLastActual (p :: q :: rest2) v)[0]? = _
        simp only [setLastActual, List.getElem?_cons_zero]
      | j' + 1 =>
        show (p :: setLastActual (q :: rest2) v)[j' + 1]? = _
        rw [List.getElem?_cons_succ, List.getElem?_cons_succ,
          ih j' (by rw [List.length_cons] at hj; omega)]

theorem setLastActual_getLast (l : List BurndownPoint) (v : Int) (hne : l ≠ []) :
    ((setLastActual l v).getLast?).map BurndownPoint.actual = some v := by
  induction l with
  | nil => exact absurd rfl hne
  | cons p rest ih =>
    cases rest with
    | nil => rfl
    | cons q rest2 =>
      show ((p :: setLastActual (q :: rest2) v).getLast?).map
        BurndownPoint.actual = some v
      cases hsl : setLastActual (q :: rest2) v with
      | nil =>
        have := setLastActual_length (q :: rest2) v
        rw [hsl] at this
        simp at this
      | cons a as =>
        rw [List.getLast?_cons_cons, ← hsl]
        exact ih (by simp)

end DevSprint

namespace DevSprint

theorem filter_date_eq_nil {snaps : List Snapshot} {d : Int}
    (h : ∀ s ∈ snaps, s.snapshot_date ≠ d) :
    snaps.filter (fun s => s.snapshot_date = d) = [] := by
  rw [List.filter_eq_nil_iff]
  intro s hs
  simp only [decide_eq_true_eq]
  exact h s hs

theorem snapshotLookup_eq_none {snaps : List Snapshot} {d : Int}
    (h : ∀ s ∈ snaps, s.snapshot_date ≠ d) :
    snapshotLookup snaps d = none := by
  unfold snapshotLookup
  rw [filter_date_eq_nil h]
  rfl

theorem filter_date_unique {snaps : List Snapshot}
    (hd : List.Pairwise (fun a b => a.snapshot_date ≠ b.snapshot_date) snaps)
    {s : Snapshot} (hs : s ∈ snaps) :
    snaps.filter (fun u => u.snapshot_date = s.snapshot_date) = [s] := by
  induction snaps with
  | nil => cases hs
  | cons a rest ih =>
    rcases List.mem_cons.mp hs with rfl | hsr
    · rw [List.filter_cons_of_pos (by simp)]
      have hrest : rest.filter (fun u => u.snapshot_date = s.snapshot_date) = [] := by
        apply filter_date_eq_nil
        intro u hu hc
        exact (List.pairwise_cons.mp hd).1 u hu hc.symm
      rw [hrest]
    · have ha : a.snapshot_date ≠ s.snapshot_date :=
        (List.pairwise_cons.mp hd).1 s hsr
      rw [List.filter_cons_of_neg (by simpa using ha)]
      exact ih (List.pairwise_cons.mp hd).2 hsr

theorem snapshotLookup_eq_some {snaps : List Snapshot}
    (hd : List.Pairwise (fun a b => a.snapshot_date ≠ b.snapshot_date) snaps)
    {s : Snapshot} (hs : s ∈ snaps) :
    snapshotLookup snaps s.snapshot_date = some s.remaining_points := by
  unfold snapshotLookup
  rw [filter_date_unique hd hs]
  rfl

theorem snap_eq_of_date {snaps : List Snapshot}
    (hd : List.Pairwise (fun a b => a.snapshot_date ≠ b.snapshot_date) snaps)
    {s u : Snapshot} (hs : s ∈ snaps) (hu : u ∈ snaps)
    (h : s.snapshot_date = u.snapshot_date) : s = u := by
  have h1 := filter_date_unique hd hs
  have h2 : u ∈ snaps.filter (fun x => x.snapshot_date = s.snapshot_date) :=
    List.mem_filter.mpr ⟨hu, by simpa using h.symm⟩
  rw [h1, List.mem_singleton] at h2
  exact h2.symm

theorem lastActualFrom_window (snaps : List Snapshot)
    (hd : List.Pairwise (fun a b => a.snapshot_date ≠ b.snapshot_date) snaps)
    (start : Int) (seed : Int) :
    ∀ j : Nat,
      ((¬ ∃ s ∈ snaps, start ≤ s.snapshot_date ∧
          s.snapshot_date ≤ start + (j : Int)) →
        lastActualFrom (snapshotLookup snaps) start 0 seed j = seed) ∧
      (∀ s ∈ snaps, start ≤ s.snapshot_date →
        s.snapshot_date ≤ start + (j : Int) →
        (∀ u ∈ snaps, start ≤ u.snapshot_date →
          u.snapshot_date ≤ start + (j : Int) →
          u.snapshot_date ≤ s.snapshot_date) →
        lastActualFrom (snapshotLookup snaps) start 0 seed j =
          s.remaining_points) := by
  intro j
  induction j with
  | zero =>
    constructor
    · intro hno
      show (snapshotLookup snaps (start + ((0 : Nat) : Int))).getD seed = seed
      rw [snapshotLookup_eq_none]
      · rfl
      · intro s hs hc
        refine hno ⟨s, hs, ?_, ?_⟩ <;> omega
    · intro s hs h1 h2 hmax
      have hdq : s.snapshot_date = start + ((0 : Nat) : Int) := by
        push_cast at h2 ⊢
        omega
      show (snapshotLookup snaps (start + ((0 : Nat) : Int))).getD seed = _
      rw [← hdq, snapshotLookup_eq_some hd hs]
      rfl
  | succ k ih =>
    have hstep : lastActualFrom (snapshotLookup snaps) start 0 seed (k + 1) =
        (snapshotLookup snaps (start + ((0 : Nat) : Int) + (k : Int) + 1)).getD
          (lastActualFrom (snapshotLookup snaps) start 0 seed k) := rfl
    by_cases hex : ∃ u ∈ snaps,
        u.snapshot_date = start + ((0 : Nat) : Int) + (k : Int) + 1
    · obtain ⟨u, hu, hud⟩ := hex
      have hlk : snapshotLookup snaps
          (start + ((0 : Nat) : Int) + (k : Int) + 1) =
          some u.remaining_points := by
        rw [← hud]
        exact snapshotLookup_eq_some hd hu
      constructor
      · intro hno
        exfalso
        refine hno ⟨u, hu, ?_, ?_⟩ <;> omega
      · intro s hs h1 h2 hmax
        have husd : u.snapshot_date ≤ s.snapshot_date := by
          refine hmax u hu ?_ ?_ <;> omega
        have hsd : s.snapshot_date = u.snapshot_date := by
          rw [hud]
          push_cast at h2 husd hud ⊢
          omega
        have : s = u := snap_eq_of_date hd hs hu hsd
        subst this
        rw [hstep, hlk]
        rfl
    · have hlk : snapshotLookup snaps
          (start + ((0 : Nat) : Int) + (k : Int) + 1) = none := by
        apply snapshotLookup_eq_none
        intro s hs hc
        exact hex ⟨s, hs, hc⟩
      rw [hstep, hlk]
      constructor
      · intro hno
        show lastActualFrom (snapshotLookup snaps) start 0 seed k = seed
        apply (ih).1
        intro ⟨s, hs, hw1, hw2⟩
        refine hno ⟨s, hs, hw1, ?_⟩
        push_cast at hw2 ⊢
        omega
      · intro s hs h1 h2 hmax
        show lastActualFrom (snapshotLookup snaps) start 0 seed k =
          s.remaining_points
        have hsd : s.snapshot_date ≠
            start + ((0 : Nat) : Int) + (k : Int) + 1 := by
          intro hc
          exact hex ⟨s, hs, hc⟩
        have h2k : s.snapshot_date ≤ start + (k : Int) := by
          push_cast at h2 hsd ⊢
          omega
        refine (ih).2 s hs h1 h2k ?_
        intro u hu hu1 hu2
        refine hmax u hu hu1 ?_
        push_cast at hu2 ⊢
        omega

end DevSprint

namespace DevSprint

theorem burnPoints_length (db : DB) (sprint : Sprint) :
    (burnPoints db sprint).length = (totalDays sprint).toNat :=
  burnLoop_length _ _ _ _ _ _ _

theorem burnPoints_ne_nil (db : DB) (sprint : Sprint) :
    burnPoints db sprint ≠ [] := by
  intro hc
  have h1 := burnPoints_length db sprint
  rw [hc] at h1
  have h2 : (1 : Int) ≤ totalDays sprint := le_max_right _ _
  simp only [List.length_nil] at h1
  omega

theorem build_burndown_eq_no_snaps (db : DB) (sprint : Sprint)
    (hs : sprintSnapshots db sprint.id = []) :
    build_burndown_payload db sprint =
      setLastActual (burnPoints db sprint)
        (calculate_remaining_points db sprint.id) := by
  unfold build_burndown_payload
  rw [if_pos ⟨burnPoints_ne_nil db sprint, hs⟩]

theorem build_burndown_eq_snaps (db : DB) (sprint : Sprint)
    (hs : sprintSnapshots db sprint.id ≠ []) :
    build_burndown_payload db sprint = burnPoints db sprint := by
  unfold build_burndown_payload
  rw [if_neg (fun hc => hs hc.2)]

theorem setLastActual_day_ideal (l : List BurndownPoint) (v : Int) :
    ∀ j : Nat, ((setLastActual l v)[j]?).map BurndownPoint.day =
      (l[j]?).map BurndownPoint.day ∧
      ((setLastActual l v)[j]?).map BurndownPoint.ideal =
      (l[j]?).map BurndownPoint.ideal := by
  induction l with
  | nil =>
    intro j
    exact ⟨rfl, rfl⟩
  | cons p rest ih =>
    intro j
    cases rest with
    | nil =>
      match j with
      | 0 =>
        constructor <;> simp [setLastActual]
      | j' + 1 =>
        constructor <;> simp [setLastActual]
    | cons q rest2 =>
      match j with
      | 0 =>
        constructor <;> simp [setLastActual]
      | j' + 1 =>
        have hstep : (setLastActual (p :: q :: rest2) v)[j' + 1]? =
            (setLastActual (q :: rest2) v)[j']? := by
          simp only [setLastActual, List.getElem?_cons_succ]
        rw [hstep, List.getElem?_cons_succ]
        exact ih j'

theorem burnPoints_getElem (db : DB) (sprint : Sprint) (j : Nat)
    (hj : j < (totalDays sprint).toNat) :
    (burnPoints db sprint)[j]? =
      some { day := "Day " ++ toString (j + 1),
             ideal := max (((totalPoints db sprint) : ℚ) -
               (j : ℚ) * ((totalPoints db sprint) : ℚ) /
               ((max ((totalDays sprint).toNat - 1) 1 : Nat) : ℚ)) 0,
             actual := max (lastActualFrom
               (snapshotLookup (sprintSnapshots db sprint.id))
               sprint.start_date 0 (totalPoints db sprint) j) 0 } := by
  have hbp := burnLoop_getElem (snapshotLookup (sprintSnapshots db sprint.id))
    (totalPoints db sprint) (totalDays sprint).toNat sprint.start_date
    (totalDays sprint).toNat 0 (totalPoints db sprint) j hj
  rw [show (0 + j) = j from by omega] at hbp
  exact hbp

/-- C2. For a sprint with `start ≤ end` and a nonnegative story-point
    sum, the burndown series has exactly `(end − start).days + 1` entries
    (at least one), ordered day-ascending with labels "Day 1", "Day 2", …;
    entry `i` has `ideal = max(totalPoints − i·totalPoints/max(1, totalDays−1), 0)`
    with `totalPoints` the current story-point sum of the sprint's stories;
    hence `ideal[0] = totalPoints`, and `ideal[last] = 0` when
    `totalDays > 1`. -/
theorem build_burndown_ideal_spec (db : DB) (sprint : Sprint)
    (h : sprint.start_date ≤ sprint.end_date)
    (hp : 0 ≤ ((sprintStories db sprint.id).map Story.story_points).sum) :
    (build_burndown_payload db sprint).length =
      (sprint.end_date - sprint.start_date).toNat + 1 ∧
    (∀ j, j < (sprint.end_date - sprint.start_date).toNat + 1 →
      ((build_burndown_payload db sprint)[j]?).map BurndownPoint.day =
        some ("Day " ++ toString (j + 1)) ∧
      ((build_burndown_payload db sprint)[j]?).map BurndownPoint.ideal =
        some (max
          ((((sprintStories db sprint.id).map Story.story_points).sum : ℚ) -
            (j : ℚ) *
            (((sprintStories db sprint.id).map Story.story_points).sum : ℚ) /
            max ((((sprint.end_date - sprint.start_date).toNat + 1 : Nat) : ℚ) - 1) 1) 0)) ∧
    ((build_burndown_payload db sprint)[0]?).map BurndownPoint.ideal =
      some ((((sprintStories db sprint.id).map Story.story_points).sum : ℚ)) ∧
    (1 < (sprint.end_date - sprint.start_date).toNat + 1 →
      ((build_burndown_payload db sprint).getLast?).map BurndownPoint.ideal =
        some 0) := by
  have htd : (totalDays sprint).toNat =
      (sprint.end_date - sprint.start_date).toNat + 1 := by
    unfold totalDays
    omega
  have htp : totalPoints db sprint =
      ((sprintStories db sprint.id).map Story.story_points).sum := by
    unfold totalPoints
    exact max_eq_left hp
  have hlen : (build_burndown_payload db sprint).length =
      (totalDays sprint).toNat := by
    by_cases hs : sprintSnapshots db sprint.id = []
    · rw [build_burndown_eq_no_snaps db sprint hs, setLastActual_length,
        burnPoints_length]
    · rw [build_burndown_eq_snaps db sprint hs, burnPoints_length]
  have hden : ((max ((totalDays sprint).toNat - 1) 1 : Nat) : ℚ) =
      max ((((sprint.end_date - sprint.start_date).toNat + 1 : Nat) : ℚ) - 1) 1 := by
    rw [htd, show ((sprint.end_date - sprint.start_date).toNat + 1 - 1 : Nat) =
      (sprint.end_date - sprint.start_date).toNat from by omega]
    rw [Nat.cast_max, Nat.cast_one]
    congr 1
    push_cast
    ring
  have hidx : ∀ j, j < (sprint.end_date - sprint.start_date).toNat + 1 →
      ((build_burndown_payload db sprint)[j]?).map BurndownPoint.day =
        some ("Day " ++ toString (j + 1)) ∧
      ((build_burndown_payload db sprint)[j]?).map BurndownPoint.ideal =
        some (max
          ((((sprintStories db sprint.id).map Story.story_points).sum : ℚ) -
            (j : ℚ) *
            (((sprintStories db sprint.id).map Story.story_points).sum : ℚ) /
            max ((((sprint.end_date - sprint.start_date).toNat + 1 : Nat) : ℚ) - 1) 1) 0) := by
    intro j hj
    rw [← htd] at hj
    have hb := burnPoints_getElem db sprint j hj
    have hmain : ((burnPoints db sprint)[j]?).map BurndownPoint.day =
        some ("Day " ++ toString (j + 1)) ∧
        ((burnPoints db sprint)[j]?).map BurndownPoint.ideal =
        some (max
          ((((sprintStories db sprint.id).map Story.story_points).sum : ℚ) -
            (j : ℚ) *
            (((sprintStories db sprint.id).map Story.story_points).sum : ℚ) /
            max ((((sprint.end_date - sprint.start_date).toNat + 1 : Nat) : ℚ) - 1) 1) 0) := by
      rw [hb]
      constructor
      · rfl
      · show some _ = some _
        rw [← hden, ← htp]
    by_cases hs : sprintSnapshots db sprint.id = []
    · rw [build_burndown_eq_no_snaps db sprint hs]
      rw [(setLastActual_day_ideal (burnPoints db sprint)
        (calculate_remaining_points db sprint.id) j).1,
        (setLastActual_day_ideal (burnPoints db sprint)
        (calculate_remaining_points db sprint.id) j).2]
      exact hmain
    · rw [build_burndown_eq_snaps db sprint hs]
      exact hmain
  refine ⟨by rw [hlen, htd], hidx, ?_, ?_⟩
  · have h0 := (hidx 0 (by omega)).2
    rw [h0]
    have hS0 : (0 : ℚ) ≤
        (((sprintStories db sprint.id).map Story.story_points).sum : ℚ) := by
      exact_mod_cast hp
    congr 1
    rw [Nat.cast_zero, zero_mul, zero_div, sub_zero]
    exact max_eq_left hS0
  · intro hT
    set T := (sprint.end_date - sprint.start_date).toNat with hTdef
    have hT1 : 1 ≤ T := by omega
    rw [List.getLast?_eq_getElem?, hlen, htd,
      show (T + 1 - 1) = T from by omega]
    have hlast := (hidx T (by omega)).2
    rw [hlast]
    congr 1
    have hcast : max (((T + 1 : Nat) : ℚ) - 1) 1 = (T : ℚ) := by
      have : (((T + 1 : Nat) : ℚ) - 1) = (T : ℚ) := by
        push_cast
        ring
      rw [this]
      exact max_eq_left (by exact_mod_cast hT1)
    rw [hcast]
    have hTne : ((T : ℚ)) ≠ 0 := by
      have : (1 : ℚ) ≤ (T : ℚ) := by exact_mod_cast hT1
      intro hc
      rw [hc] at this
      norm_num at this
    rw [mul_comm, mul_div_assoc, div_self hTne, mul_one, sub_self]
    exact max_self 0

end DevSprint

namespace DevSprint

/-- Witness for C2 at a concrete sprint (8 days, one 5-point story). -/
theorem build_burndown_ideal_spec_witness :
    (build_burndown_payload dbCap
      ⟨1, "Sprint 1", 0, 7, SprintStatus.ACTIVE⟩).length = 8 :=
  (build_burndown_ideal_spec dbCap ⟨1, "Sprint 1", 0, 7, SprintStatus.ACTIVE⟩
    (by decide) (by decide)).1

/-- C3 (amended). With snapshot dates pairwise distinct and values
    nonnegative: entry i's actual equals the remaining_points of the most
    recent snapshot whose date lies within [startDate, startDate + i] —
    snapshots dated before the sprint's start are ignored, not carried in —
    and equals the seed totalPoints while no snapshot date in that range
    has been reached; when the sprint has no snapshots at all, every entry
    holds the seed except the last, which is the live remaining-points
    figure computed at build time. -/
theorem build_burndown_actual_spec (db : DB) (sprint : Sprint)
    (hvals : ∀ s ∈ sprintSnapshots db sprint.id, 0 ≤ s.remaining_points)
    (hdates : List.Pairwise (fun a b => a.snapshot_date ≠ b.snapshot_date)
      (sprintSnapshots db sprint.id))
    (hp : 0 ≤ ((sprintStories db sprint.id).map Story.story_points).sum) :
    (sprintSnapshots db sprint.id ≠ [] →
      ∀ j : Nat, j < (totalDays sprint).toNat →
        (∀ s ∈ sprintSnapshots db sprint.id,
          sprint.start_date ≤ s.snapshot_date →
          s.snapshot_date ≤ sprint.start_date + (j : Int) →
          (∀ u ∈ sprintSnapshots db sprint.id,
            sprint.start_date ≤ u.snapshot_date →
            u.snapshot_date ≤ sprint.start_date + (j : Int) →
            u.snapshot_date ≤ s.snapshot_date) →
          ((build_burndown_payload db sprint)[j]?).map BurndownPoint.actual =
            some s.remaining_points) ∧
        ((¬ ∃ s ∈ sprintSnapshots db sprint.id,
            sprint.start_date ≤ s.snapshot_date ∧
            s.snapshot_date ≤ sprint.start_date + (j : Int)) →
          ((build_burndown_payload db sprint)[j]?).map BurndownPoint.actual =
            some (((sprintStories db sprint.id).map Story.story_points).sum))) ∧
    (sprintSnapshots db sprint.id = [] →
      (∀ j : Nat, j + 1 < (totalDays sprint).toNat →
        ((build_burndown_payload db sprint)[j]?).map BurndownPoint.actual =
          some (((sprintStories db sprint.id).map Story.story_points).sum)) ∧
      ((build_burndown_payload db sprint).getLast?).map BurndownPoint.actual =
        some (calculate_remaining_points db sprint.id)) := by
  have htp : totalPoints db sprint =
      ((sprintStories db sprint.id).map Story.story_points).sum := by
    unfold totalPoints
    exact max_eq_left hp
  have htp0 : 0 ≤ totalPoints db sprint := by
    rw [htp]
    exact hp
  constructor
  · intro hs j hj
    have hbuild := build_burndown_eq_snaps db sprint hs
    have hb := burnPoints_getElem db sprint j hj
    constructor
    · intro s hsm h1 h2 hmax
      have hwin := (lastActualFrom_window (sprintSnapshots db sprint.id) hdates
        sprint.start_date (totalPoints db sprint) j).2 s hsm h1 h2 hmax
      rw [hbuild, hb]
      show some _ = some _
      rw [hwin, max_eq_left (hvals s hsm)]
    · intro hno
      have hwin := (lastActualFrom_window (sprintSnapshots db sprint.id) hdates
        sprint.start_date (totalPoints db sprint) j).1 hno
      rw [hbuild, hb]
      show some _ = some _
      rw [hwin, max_eq_left htp0, htp]
  · intro hs
    have hbuild := build_burndown_eq_no_snaps db sprint hs
    constructor
    · intro j hj
      have hj' : j < (totalDays sprint).toNat := by omega
      have hb := burnPoints_getElem db sprint j hj'
      rw [hbuild,
        setLastActual_getElem_lt (burnPoints db sprint)
          (calculate_remaining_points db sprint.id) j
          (by rw [burnPoints_length]; exact hj),
        hb]
      show some _ = some _
      have hwin := (lastActualFrom_window (sprintSnapshots db sprint.id) hdates
        sprint.start_date (totalPoints db sprint) j).1 (by
          rintro ⟨s, hsm, -⟩
          rw [hs] at hsm
          cases hsm)
      rw [hwin, max_eq_left htp0, htp]
    · rw [hbuild]
      exact setLastActual_getLast (burnPoints db sprint)
        (calculate_remaining_points db sprint.id) (burnPoints_ne_nil db sprint)

/-- Witness for the amended C3: in `dbSnap` the day-1 snapshot (3 points)
    is the most recent one by day 1, so `actual[1] = 3`. -/
theorem build_burndown_actual_spec_witness :
    ((build_burndown_payload dbSnap spSnap)[1]?).map BurndownPoint.actual =
      some 3 :=
  ((build_burndown_actual_spec dbSnap spSnap (by decide) (by decide)
      (by decide)).1 (by decide) 1 (by decide)).1 ⟨1, 1, 1, 3⟩ (by decide)
    (by decide) (by decide) (by decide)

/-- C3 counterexample. In `dbPre` the only snapshot (3 remaining
    points) is dated before the sprint's start; it is the most recent
    snapshot with date ≤ the sprint's first day, so the claim as stated
    predicts `actual[0] = 3`, but the code never consults it and yields the
    seed 7. -/
theorem burndown_actual_prestart_counterexample :
    ((build_burndown_payload dbPre spPre)[0]?).map BurndownPoint.actual =
      some 7 ∧
    (∃ s ∈ sprintSnapshots dbPre spPre.id,
      s.snapshot_date ≤ spPre.start_date ∧ s.remaining_points = 3 ∧
      ∀ u ∈ sprintSnapshots dbPre spPre.id,
        u.snapshot_date ≤ spPre.start_date →
        u.snapshot_date ≤ s.snapshot_date) ∧
    ¬ ((build_burndown_payload dbPre spPre)[0]?).map BurndownPoint.actual =
      some 3 := by
  decide

end DevSprint

namespace DevSprint

/-! ### Lemmas about the GitHub webhook -/

theorem mem_taskIds {db : DB} {n : Nat} :
    n ∈ taskIds db ↔ ∃ t ∈ db.tasks, t.id = n := by
  unfold taskIds
  exact List.mem_map

theorem taskIds_setTaskStatus (db : DB) (tid : Nat) (st : TaskStatus) :
    taskIds (setTaskStatus db tid st) = taskIds db := by
  unfold taskIds setTaskStatus
  rw [List.map_map]
  apply List.map_congr_left
  intro t ht
  by_cases h : t.id = tid <;> simp [h]

theorem find?_status_map_setStatus (l : List Task) (m n : Nat) (st : TaskStatus)
    (h : n ≠ m) :
    ((l.map (fun t => if t.id = m then { t with status := st } else t)).find?
      (fun t => t.id = n)).map Task.status =
    (l.find? (fun t => t.id = n)).map Task.status := by
  induction l with
  | nil => rfl
  | cons t rest ih =>
    rw [List.map_cons]
    by_cases hm : t.id = m
    · rw [if_pos hm]
      have hn1 : ¬ (({ t with status := st } : Task).id = n) := by
        show ¬ t.id = n
        rw [hm]
        exact fun hc => h hc.symm
      have hn2 : ¬ t.id = n := by
        rw [hm]
        exact fun hc => h hc.symm
      rw [List.find?_cons_of_neg _ (by simpa using hn1),
        List.find?_cons_of_neg _ (by simpa using hn2)]
      exact ih
    · rw [if_neg hm]
      by_cases hn : t.id = n
      · rw [List.find?_cons_of_pos _ (by simpa using hn),
          List.find?_cons_of_pos _ (by simpa using hn)]
      · rw [List.find?_cons_of_neg _ (by simpa using hn),
          List.find?_cons_of_neg _ (by simpa using hn)]
        exact ih

theorem statusOf_setTaskStatus_ne (db : DB) {m n : Nat} (st : TaskStatus)
    (h : n ≠ m) :
    statusOf (setTaskStatus db m st) n = statusOf db n := by
  unfold statusOf setTaskStatus
  exact find?_status_map_setStatus db.tasks m n st h

theorem link_pr_parts (db : DB) (tid : Nat) (url repo : Option String) :
    taskIds (link_pr_to_task db tid url repo) = taskIds db ∧
    (link_pr_to_task db tid url repo).stories = db.stories ∧
    (link_pr_to_task db tid url repo).links =
      db.links ++ [⟨db.next_id, tid, none, url, repo⟩] ∧
    (∀ n : Nat, n ≠ tid →
      statusOf (link_pr_to_task db tid url repo) n = statusOf db n) := by
  refine ⟨taskIds_setTaskStatus db tid TaskStatus.CODE_REVIEW, rfl, rfl, ?_⟩
  intro n hn
  show statusOf (setTaskStatus db tid TaskStatus.CODE_REVIEW) n = statusOf db n
  exact statusOf_setTaskStatus_ne db TaskStatus.CODE_REVIEW hn

theorem prFold_spec (repo url : Option String) :
    ∀ (ns : List Nat) (acc : DB × List Nat),
      taskIds (ns.foldl (fun acc2 n =>
          if ∃ t ∈ acc2.1.tasks, t.id = n then
            (link_pr_to_task acc2.1 n url repo, acc2.2 ++ [n])
          else acc2) acc).1 = taskIds acc.1 ∧
      (ns.foldl (fun acc2 n =>
          if ∃ t ∈ acc2.1.tasks, t.id = n then
            (link_pr_to_task acc2.1 n url repo, acc2.2 ++ [n])
          else acc2) acc).1.stories = acc.1.stories ∧
      (ns.foldl (fun acc2 n =>
          if ∃ t ∈ acc2.1.tasks, t.id = n then
            (link_pr_to_task acc2.1 n url repo, acc2.2 ++ [n])
          else acc2) acc).2 =
        acc.2 ++ ns.filter (fun n => n ∈ taskIds acc.1) ∧
      (∀ l ∈ (ns.foldl (fun acc2 n =>
          if ∃ t ∈ acc2.1.tasks, t.id = n then
            (link_pr_to_task acc2.1 n url repo, acc2.2 ++ [n])
          else acc2) acc).1.links,
        l ∈ acc.1.links ∨ l.task_id ∈ taskIds acc.1) ∧
      (∀ n : Nat, n ∉ ns →
        statusOf (ns.foldl (fun acc2 n =>
          if ∃ t ∈ acc2.1.tasks, t.id = n then
            (link_pr_to_task acc2.1 n url repo, acc2.2 ++ [n])
          else acc2) acc).1 n = statusOf acc.1 n) := by
  intro ns
  induction ns with
  | nil =>
    intro acc
    exact ⟨rfl, rfl, by simp, fun l hl => Or.inl hl, fun n _ => rfl⟩
  | cons m rest ih =>
    intro acc
    rw [List.foldl_cons]
    by_cases hex : ∃ t ∈ acc.1.tasks, t.id = m
    · rw [if_pos hex]
      have hparts := link_pr_parts acc.1 m url repo
      have ihr := ih (link_pr_to_task acc.1 m url repo, acc.2 ++ [m])
      have hids : taskIds (link_pr_to_task acc.1 m url repo) = taskIds acc.1 :=
        hparts.1
      refine ⟨ihr.1.trans hids, ihr.2.1.trans hparts.2.1, ?_, ?_, ?_⟩
      · rw [ihr.2.2.1]
        rw [List.filter_cons_of_pos (by
          simp only [decide_eq_true_eq]
          exact mem_taskIds.mpr hex)]
        simp only [hids, List.append_assoc, List.cons_append, List.nil_append]
      · intro l hl
        rcases ihr.2.2.2.1 l hl with hl2 | hl2
        · rw [hparts.2.2.1] at hl2
          rcases List.mem_append.mp hl2 with hl3 | hl3
          · exact Or.inl hl3
          · rw [List.mem_singleton] at hl3
            subst hl3
            exact Or.inr (mem_taskIds.mpr hex)
        · rw [hids] at hl2
          exact Or.inr hl2
      · intro n hn
        have hn1 : n ∉ rest := fun hc => hn (List.mem_cons_of_mem m hc)
        have hn2 : n ≠ m := fun hc => hn (hc ▸ List.mem_cons_self m rest)
        rw [ihr.2.2.2.2 n hn1]
        exact hparts.2.2.2 n hn2
    · rw [if_neg hex]
      have ihr := ih acc
      refine ⟨ihr.1, ihr.2.1, ?_, ihr.2.2.2.1, ?_⟩
      · rw [ihr.2.2.1]
        rw [List.filter_cons_of_neg (by
          simp only [decide_eq_true_eq]
          exact fun hc => hex (mem_taskIds.mp hc))]
      · intro n hn
        exact ihr.2.2.2.2 n (fun hc => hn (List.mem_cons_of_mem m hc))

end DevSprint

namespace DevSprint

theorem commitFold_spec (repo cid : Option String) :
    ∀ (ns : List Nat) (acc : DB × List Nat),
      (ns.foldl (fun acc2 n =>
          if ∃ t ∈ acc2.1.tasks, t.id = n then
            (link_commit_to_task acc2.1 n cid repo, acc2.2 ++ [n])
          else acc2) acc).1.tasks = acc.1.tasks ∧
      (ns.foldl (fun acc2 n =>
          if ∃ t ∈ acc2.1.tasks, t.id = n then
            (link_commit_to_task acc2.1 n cid repo, acc2.2 ++ [n])
          else acc2) acc).1.stories = acc.1.stories ∧
      (ns.foldl (fun acc2 n =>
          if ∃ t ∈ acc2.1.tasks, t.id = n then
            (link_commit_to_task acc2.1 n cid repo, acc2.2 ++ [n])
          else acc2) acc).2 =
        acc.2 ++ ns.filter (fun n => n ∈ taskIds acc.1) ∧
      (∀ l ∈ (ns.foldl (fun acc2 n =>
          if ∃ t ∈ acc2.1.tasks, t.id = n then
            (link_commit_to_task acc2.1 n cid repo, acc2.2 ++ [n])
          else acc2) acc).1.links,
        l ∈ acc.1.links ∨ l.task_id ∈ taskIds acc.1) := by
  intro ns
  induction ns with
  | nil =>
    intro acc
    exact ⟨rfl, rfl, by simp, fun l hl => Or.inl hl⟩
  | cons m rest ih =>
    intro acc
    rw [List.foldl_cons]
    by_cases hex : ∃ t ∈ acc.1.tasks, t.id = m
    · rw [if_pos hex]
      have ihr := ih (link_commit_to_task acc.1 m cid repo, acc.2 ++ [m])
      have htasks : (link_commit_to_task acc.1 m cid repo).tasks =
        acc.1.tasks := rfl
      have hids : taskIds (link_commit_to_task acc.1 m cid repo) =
          taskIds acc.1 := by
        unfold taskIds
        rw [htasks]
      refine ⟨ihr.1.trans htasks, ihr.2.1, ?_, ?_⟩
      · rw [ihr.2.2.1]
        rw [List.filter_cons_of_pos (by
          simp only [decide_eq_true_eq]
          exact mem_taskIds.mpr hex)]
        simp only [hids, List.append_assoc, List.cons_append, List.nil_append]
      · intro l hl
        rcases ihr.2.2.2 l hl with hl2 | hl2
        · have hlinks : (link_commit_to_task acc.1 m cid repo).links =
            acc.1.links ++ [⟨acc.1.next_id, m, cid, none, repo⟩] := rfl
          rw [hlinks] at hl2
          rcases List.mem_append.mp hl2 with hl3 | hl3
          · exact Or.inl hl3
          · rw [List.mem_singleton] at hl3
            subst hl3
            exact Or.inr (mem_taskIds.mpr hex)
        · rw [hids] at hl2
          exact Or.inr hl2
    · rw [if_neg hex]
      have ihr := ih acc
      refine ⟨ihr.1, ihr.2.1, ?_, ihr.2.2.2⟩
      rw [ihr.2.2.1]
      rw [List.filter_cons_of_neg (by
        simp only [decide_eq_true_eq]
        exact fun hc => hex (mem_taskIds.mp hc))]

theorem commitsFold_spec (repo : Option String) :
    ∀ (cs : List WebhookCommit) (acc : DB × List Nat),
      (cs.foldl (fun acc commit =>
          (extractTaskIds commit.message).foldl (fun acc2 n =>
            if ∃ t ∈ acc2.1.tasks, t.id = n then
              (link_commit_to_task acc2.1 n commit.id repo, acc2.2 ++ [n])
            else acc2) acc) acc).1.tasks = acc.1.tasks ∧
      (cs.foldl (fun acc commit =>
          (extractTaskIds commit.message).foldl (fun acc2 n =>
            if ∃ t ∈ acc2.1.tasks, t.id = n then
              (link_commit_to_task acc2.1 n commit.id repo, acc2.2 ++ [n])
            else acc2) acc) acc).1.stories = acc.1.stories ∧
      (cs.foldl (fun acc commit =>
          (extractTaskIds commit.message).foldl (fun acc2 n =>
            if ∃ t ∈ acc2.1.tasks, t.id = n then
              (link_commit_to_task acc2.1 n commit.id repo, acc2.2 ++ [n])
            else acc2) acc) acc).2 =
        acc.2 ++ ((cs.map (fun c => extractTaskIds c.message)).flatten).filter
          (fun n => n ∈ taskIds acc.1) ∧
      (∀ l ∈ (cs.foldl (fun acc commit =>
          (extractTaskIds commit.message).foldl (fun acc2 n =>
            if ∃ t ∈ acc2.1.tasks, t.id = n then
              (link_commit_to_task acc2.1 n commit.id repo, acc2.2 ++ [n])
            else acc2) acc) acc).1.links,
        l ∈ acc.1.links ∨ l.task_id ∈ taskIds acc.1) := by
  intro cs
  induction cs with
  | nil =>
    intro acc
    exact ⟨rfl, rfl, by simp, fun l hl => Or.inl hl⟩
  | cons c rest ih =>
    intro acc
    rw [List.foldl_cons]
    have hin := commitFold_spec repo c.id (extractTaskIds c.message) acc
    set acc1 := (extractTaskIds c.message).foldl (fun acc2 n =>
      if ∃ t ∈ acc2.1.tasks, t.id = n then
        (link_commit_to_task acc2.1 n c.id repo, acc2.2 ++ [n])
      else acc2) acc with hacc1
    have ihr := ih acc1
    have hids : taskIds acc1.1 = taskIds acc.1 := by
      unfold taskIds
      rw [hin.1]
    refine ⟨ihr.1.trans hin.1, ihr.2.1.trans hin.2.1, ?_, ?_⟩
    · rw [ihr.2.2.1, hin.2.2.1]
      rw [List.map_cons, List.flatten_cons, List.filter_append]
      simp only [hids, List.append_assoc]
    · intro l hl
      rcases ihr.2.2.2 l hl with hl2 | hl2
      · rcases hin.2.2.2 l hl2 with hl3 | hl3
        · exact Or.inl hl3
        · exact Or.inr hl3
      · rw [hids] at hl2
        exact Or.inr hl2

/-- C10. Webhook reference tokens whose number does not identify an
    existing task are silently skipped: the returned `linked_tasks` list is
    exactly the referenced numbers that exist in the store (once per
    matched reference, duplicates preserved); every SourceLink row is
    either pre-existing or attached to an existing task; the stored task
    ids and the stories table are unchanged; and the status of any task not
    referenced by the pull-request text is unchanged. -/
theorem github_webhook_skips_unknown (db : DB) (payload : WebhookPayload) :
    (github_webhook db payload).2 =
      (allRefs payload).filter (fun n => n ∈ taskIds db) ∧
    taskIds (github_webhook db payload).1 = taskIds db ∧
    (github_webhook db payload).1.stories = db.stories ∧
    (∀ l ∈ (github_webhook db payload).1.links,
      l ∈ db.links ∨ l.task_id ∈ taskIds db) ∧
    (∀ n : Nat, n ∉ prRefs payload →
      statusOf (github_webhook db payload).1 n = statusOf db n) := by
  obtain ⟨repo, commits, pr⟩ := payload
  have hcf := commitsFold_spec repo commits (db, ([] : List Nat))
  set step1 := commits.foldl (fun acc commit =>
    (extractTaskIds commit.message).foldl (fun acc2 n =>
      if ∃ t ∈ acc2.1.tasks, t.id = n then
        (link_commit_to_task acc2.1 n commit.id repo, acc2.2 ++ [n])
      else acc2) acc) (db, ([] : List Nat)) with hstep1
  have hids1 : taskIds step1.1 = taskIds db := by
    unfold taskIds
    rw [hcf.1]
  have hstatus1 : ∀ n : Nat, statusOf step1.1 n = statusOf db n := by
    intro n
    unfold statusOf
    rw [hcf.1]
  cases pr with
  | none =>
    show (step1.2 = _ ∧ _)
    refine ⟨?_, hids1, hcf.2.1, ?_, fun n _ => hstatus1 n⟩
    · rw [hcf.2.2.1]
      show _ = ((commits.map (fun c : WebhookCommit =>
        extractTaskIds c.message)).flatten ++ []).filter
          (fun n => n ∈ taskIds db)
      simp
    · exact hcf.2.2.2
  | some prv =>
    have hpf := prFold_spec repo prv.html_url
      (extractTaskIds (prv.title ++ "\n" ++ prv.body)) step1
    show (((extractTaskIds (prv.title ++ "\n" ++ prv.body)).foldl _ step1).2 = _ ∧ _)
    refine ⟨?_, hpf.1.trans hids1, hpf.2.1.trans hcf.2.1, ?_, ?_⟩
    · rw [hpf.2.2.1, hcf.2.2.1]
      show _ = ((commits.map (fun c : WebhookCommit =>
        extractTaskIds c.message)).flatten ++
        extractTaskIds (prv.title ++ "\n" ++ prv.body)).filter
          (fun n => n ∈ taskIds db)
      rw [List.filter_append]
      simp only [hids1, List.nil_append, List.append_assoc]
    · intro l hl
      rcases hpf.2.2.2.1 l hl with hl2 | hl2
      · rcases hcf.2.2.2 l hl2 with hl3 | hl3
        · exact Or.inl hl3
        · exact Or.inr hl3
      · rw [hids1] at hl2
        exact Or.inr hl2
    · intro n hn
      have hn' : n ∉ extractTaskIds (prv.title ++ "\n" ++ prv.body) := hn
      exact (hpf.2.2.2.2 n hn').trans (hstatus1 n)

end DevSprint

namespace DevSprint

/-- Witness for C10 at a concrete store and payload: an unreferenced task
    id keeps its status. -/
theorem github_webhook_skips_unknown_witness :
    statusOf (github_webhook dbWh whPayload).1 5 = statusOf dbWh 5 :=
  (github_webhook_skips_unknown dbWh whPayload).2.2.2.2 5 (by decide)

/-! ### Lemmas about story-status re-derivation (C5) -/

theorem sync_status_only_on_tasks (tasks : List Task) (s1 s2 : Story)
    (hne : tasks ≠ []) :
    (sync_story_status tasks s1).status =
      (sync_story_status tasks s2).status := by
  unfold sync_story_status
  rw [if_neg hne, if_neg hne]
  by_cases h1 : ∀ t ∈ tasks, t.status = TaskStatus.DONE
  · rw [if_pos h1, if_pos h1]
  · rw [if_neg h1, if_neg h1]
    by_cases h2 : ∃ t ∈ tasks,
        t.status = TaskStatus.IN_PROGRESS ∨ t.status = TaskStatus.CODE_REVIEW
    · rw [if_pos h2, if_pos h2]
    · rw [if_neg h2, if_neg h2]

theorem sync_status_idem (tasks : List Task) (s : Story) :
    (sync_story_status tasks s).status =
      (sync_story_status tasks (sync_story_status tasks s)).status := by
  by_cases hne : tasks = []
  · subst hne
    rfl
  · exact sync_status_only_on_tasks tasks s (sync_story_status tasks s) hne

theorem storyRollupOk_syncStoryInDb (db : DB) (sid : Nat) :
    StoryRollupOk (syncStoryInDb db sid) sid := by
  intro s' hs' hid
  have htasks : storyTasks (syncStoryInDb db sid) sid = storyTasks db sid := rfl
  rw [htasks]
  have hs'' : s' ∈ db.stories.map (fun s =>
      if s.id = sid then sync_story_status (storyTasks db sid) s else s) := hs'
  rw [List.mem_map] at hs''
  obtain ⟨s, hs, hmap⟩ := hs''
  by_cases hsid : s.id = sid
  · rw [if_pos hsid] at hmap
    subst hmap
    exact sync_status_idem (storyTasks db sid) s
  · rw [if_neg hsid] at hmap
    subst hmap
    exact absurd hid hsid

/-- C5 (amended). After every task create, update, or delete through
    the task endpoints, the owning story's persisted status equals the
    rollup (§4.2) of its tasks' statuses.  The GitHub webhook PR path,
    which forces matched tasks to CODE_REVIEW, does not re-derive the
    owning story's status (see the counterexample). -/
theorem task_mutations_resync (db : DB) :
    (∀ payload db', create_task db payload = some db' →
      StoryRollupOk db' payload.story_id) ∧
    (∀ tid patch db' t, update_task db tid patch = some db' →
      db.tasks.find? (fun u => u.id = tid) = some t →
      StoryRollupOk db' t.story_id) ∧
    (∀ tid db' t, delete_task db tid = some db' →
      db.tasks.find? (fun u => u.id = tid) = some t →
      StoryRollupOk db' t.story_id) := by
  refine ⟨?_, ?_, ?_⟩
  · intro payload db' hcreate
    unfold create_task at hcreate
    by_cases hex : ∃ s ∈ db.stories, s.id = payload.story_id
    · rw [if_pos hex] at hcreate
      have heq := Option.some.inj hcreate
      subst heq
      exact storyRollupOk_syncStoryInDb _ _
    · rw [if_neg hex] at hcreate
      exact absurd hcreate (by simp)
  · intro tid patch db' t hupd hfind
    unfold update_task at hupd
    rw [hfind] at hupd
    have hupd' : (if ∃ s ∈ db.stories, s.id = t.story_id then
        syncStoryInDb
          { db with tasks := db.tasks.map (fun u =>
              if u.id = tid then applyTaskUpdate patch u else u) }
          t.story_id
      else
        { db with tasks := db.tasks.map (fun u =>
            if u.id = tid then applyTaskUpdate patch u else u) }) = db' :=
      Option.some.inj hupd
    by_cases hex : ∃ s ∈ db.stories, s.id = t.story_id
    · rw [if_pos hex] at hupd'
      subst hupd'
      exact storyRollupOk_syncStoryInDb _ _
    · rw [if_neg hex] at hupd'
      subst hupd'
      intro s hs hid
      exact absurd ⟨s, hs, hid⟩ hex
  · intro tid db' t hdel hfind
    unfold delete_task at hdel
    rw [hfind] at hdel
    have hdel' : (if ∃ s ∈ db.stories, s.id = t.story_id then
        syncStoryInDb
          { db with
              tasks := db.tasks.erase t,
              links := db.links.filter (fun l => ¬ l.task_id = t.id) }
          t.story_id
      else
        { db with
            tasks := db.tasks.erase t,
            links := db.links.filter (fun l => ¬ l.task_id = t.id) }) = db' :=
      Option.some.inj hdel
    by_cases hex : ∃ s ∈ db.stories, s.id = t.story_id
    · rw [if_pos hex] at hdel'
      subst hdel'
      exact storyRollupOk_syncStoryInDb _ _
    · rw [if_neg hex] at hdel'
      subst hdel'
      intro s hs hid
      exact absurd ⟨s, hs, hid⟩ hex

/-- Witness for the amended C5: updating the task of `dbWh` re-derives
    story 1's status. -/
theorem task_mutations_resync_witness :
    StoryRollupOk ((update_task dbWh 1
      ⟨none, some TaskStatus.TODO, none, none, none⟩).getD dbWh) 1 :=
  (task_mutations_resync dbWh).2.1 1
    ⟨none, some TaskStatus.TODO, none, none, none⟩
    ((update_task dbWh 1 ⟨none, some TaskStatus.TODO, none, none, none⟩).getD dbWh)
    ⟨1, 1, "T", TaskStatus.DONE, 5, false, none⟩ (by decide) (by decide)

/-- C5 counterexample. Before the call the rollup invariant holds in
    `dbWh` (story 1 DONE, its single task DONE).  The PR webhook forces
    task 1 to CODE_REVIEW without re-deriving the story: story 1 stays
    DONE while the rollup of its tasks would be ACTIVE. -/
theorem webhook_leaves_story_stale :
    StoryRollupOk dbWh 1 ∧
    statusOf (github_webhook dbWh whPayload).1 1 =
      some TaskStatus.CODE_REVIEW ∧
    ¬ StoryRollupOk (github_webhook dbWh whPayload).1 1 := by
  refine ⟨?_, by decide, ?_⟩ <;> (unfold StoryRollupOk; decide)

end DevSprint

namespace DevSprint

/-! ### Lemmas about the simulation driver -/

theorem minSprint_none_iff (l : List Sprint) : minSprint l = none ↔ l = [] := by
  cases l with
  | nil => simp [minSprint]
  | cons s rest =>
    simp only [minSprint]
    constructor
    · intro h
      cases hm : minSprint rest with
      | none => simp only [hm] at h; cases h
      | some u =>
        simp only [hm] at h
        by_cases hle : s.start_date ≤ u.start_date
        · rw [if_pos hle] at h; cases h
        · rw [if_neg hle] at h; cases h
    · intro h
      cases h

theorem minSprint_mem {l : List Sprint} {s : Sprint}
    (h : minSprint l = some s) : s ∈ l := by
  induction l with
  | nil => cases h
  | cons a rest ih =>
    rw [minSprint] at h
    cases hm : minSprint rest with
    | none =>
      simp only [hm] at h
      cases h
      exact List.mem_cons_self _ _
    | some u =>
      simp only [hm] at h
      by_cases hle : a.start_date ≤ u.start_date
      · rw [if_pos hle] at h
        cases h
        exact List.mem_cons_self _ _
      · rw [if_neg hle] at h
        cases h
        exact List.mem_cons_of_mem a (ih hm)

theorem minSprint_min {l : List Sprint} {s : Sprint}
    (h : minSprint l = some s) :
    ∀ q ∈ l, s.start_date ≤ q.start_date := by
  induction l generalizing s with
  | nil => cases h
  | cons a rest ih =>
    rw [minSprint] at h
    intro q hq
    cases hm : minSprint rest with
    | none =>
      simp only [hm] at h
      cases h
      rcases List.mem_cons.mp hq with rfl | hqr
      · exact le_refl _
      · rw [minSprint_none_iff] at hm
        simp only [hm] at hqr
        cases hqr
    | some u =>
      simp only [hm] at h
      by_cases hle : a.start_date ≤ u.start_date
      · rw [if_pos hle] at h
        cases h
        rcases List.mem_cons.mp hq with rfl | hqr
        · exact le_refl _
        · exact le_trans hle (ih hm q hqr)
      · rw [if_neg hle] at h
        cases h
        rcases List.mem_cons.mp hq with rfl | hqr
        · exact le_of_lt (lt_of_not_le hle)
        · exact ih hm q hqr

/-- C7 (amended). With a nonnegative target: the call fails with
    NotFound iff there is no ACTIVE sprint (it does not require the ACTIVE
    sprint to be unique); on success it targets an ACTIVE sprint with the
    earliest start date, sets the clock offset in one step so that
    `(endDate − now()).days` equals the target, captures a snapshot at the
    new current date for every ACTIVE sprint (exactly one row each), and
    alters no task or story data. -/
theorem set_remaining_days_spec (db : DB) (realToday target : Int)
    (htarget : 0 ≤ target) (hinv : SnapInv db) :
    (simulate_set_remaining_days db realToday target = Except.error 404 ↔
      activeSprints db = []) ∧
    (∀ offset day db',
      simulate_set_remaining_days db realToday target =
        Except.ok (offset, day, db') →
      (∃ sp, sp ∈ activeSprints db ∧
        (∀ q ∈ activeSprints db, sp.start_date ≤ q.start_date) ∧
        offset = (sp.end_date - realToday) - target ∧
        sp.end_date - (realToday + offset) = target) ∧
      day = realToday + offset ∧
      db'.tasks = db.tasks ∧ db'.stories = db.stories ∧
      (∀ sp ∈ activeSprints db, ∃ s0 : Snapshot,
        snapRows db' sp.id day = [s0] ∧
        s0.remaining_points = calculate_remaining_points db sp.id)) := by
  unfold simulate_set_remaining_days
  rw [if_neg (not_lt.mpr htarget)]
  cases hms : minSprint (activeSprints db) with
  | none =>
    constructor
    · simp only [minSprint_none_iff] at hms
      exact ⟨fun _ => hms, fun _ => rfl⟩
    · intro offset day db' h
      cases h
  | some sp =>
    constructor
    · constructor
      · intro h
        cases h
      · intro h
        rw [h] at hms
        cases hms
    · intro offset day db' h
      have h3 := Except.ok.inj h
      have h4 : (sp.end_date - realToday) - target = offset :=
        congrArg Prod.fst h3
      have h5 : realToday + ((sp.end_date - realToday) - target) = day :=
        congrArg (fun p => p.2.1) h3
      have h6 : (capture_burndown_snapshots db
          (some (realToday + ((sp.end_date - realToday) - target)))
          realToday).1 = db' :=
        congrArg (fun p => p.2.2) h3
      subst h4
      subst h5
      subst h6
      refine ⟨⟨sp, minSprint_mem hms, minSprint_min hms, rfl, by ring⟩,
        rfl, ?_, ?_, ?_⟩
      · exact (captureDB_tables db _).2.2.1
      · exact (captureDB_tables db _).1
      · intro q hq
        obtain ⟨s0, h0, -, -, hval⟩ := snapRows_captureFold_mem
          (realToday + (sp.end_date - realToday - target))
          (activeSprints db) db (List.mem_map.mpr ⟨q, hq, rfl⟩)
          (hinv q.id _)
        exact ⟨s0, h0, hval⟩

/-- Witness for the amended C7 at a concrete store. -/
theorem set_remaining_days_spec_witness :
    (simulate_set_remaining_days dbCap 0 2 = Except.error 404 ↔
      activeSprints dbCap = []) :=
  (set_remaining_days_spec dbCap 0 2 (by decide)
    (fun spid dd => by simp [snapRows, dbCap])).1

/-- C7 counterexample. `dbTwo` holds two ACTIVE sprints — not exactly
    one — yet the call succeeds rather than failing with NotFound. -/
theorem set_remaining_days_two_active :
    (activeSprints dbTwo).length = 2 ∧
    simulate_set_remaining_days dbTwo 0 2 =
      Except.ok (3, 3, (capture_burndown_snapshots dbTwo (some 3) 0).1) := by
  constructor
  · decide
  · rfl

end DevSprint

namespace DevSprint

theorem minTask_none_iff (l : List Task) : minTask l = none ↔ l = [] := by
  cases l with
  | nil => simp [minTask]
  | cons t rest =>
    simp only [minTask]
    constructor
    · intro h
      cases hm : minTask rest with
      | none =>
        simp only [hm] at h
        cases h
      | some u =>
        simp only [hm] at h
        by_cases hle : (if t.is_tech_debt then 0 else 1 : Nat) <
            (if u.is_tech_debt then 0 else 1) ∨
            ((if t.is_tech_debt then 0 else 1 : Nat) =
              (if u.is_tech_debt then 0 else 1) ∧ t.id ≤ u.id)
        · rw [if_pos hle] at h; cases h
        · rw [if_neg hle] at h; cases h
    · intro h
      cases h

theorem minTask_mem {l : List Task} {t : Task}
    (h : minTask l = some t) : t ∈ l := by
  induction l generalizing t with
  | nil => cases h
  | cons a rest ih =>
    rw [minTask] at h
    cases hm : minTask rest with
    | none =>
      simp only [hm] at h
      cases h
      exact List.mem_cons_self _ _
    | some u =>
      simp only [hm] at h
      by_cases hle : (if a.is_tech_debt then 0 else 1 : Nat) <
          (if u.is_tech_debt then 0 else 1) ∨
          ((if a.is_tech_debt then 0 else 1 : Nat) =
            (if u.is_tech_debt then 0 else 1) ∧ a.id ≤ u.id)
      · rw [if_pos hle] at h
        cases h
        exact List.mem_cons_self _ _
      · rw [if_neg hle] at h
        cases h
        exact List.mem_cons_of_mem a (ih hm)

theorem taskLE_trans {t u v : Task} (h1 : taskLE t u) (h2 : taskLE u v) :
    taskLE t v := by
  unfold taskLE at h1 h2 ⊢
  omega

theorem taskLE_refl (t : Task) : taskLE t t := by
  unfold taskLE
  omega

theorem taskLE_of_not {t u : Task} (h : ¬ taskLE t u) : taskLE u t := by
  unfold taskLE at h ⊢
  omega

theorem minTask_min {l : List Task} {t : Task}
    (h : minTask l = some t) :
    ∀ u ∈ l, taskLE t u := by
  induction l generalizing t with
  | nil => cases h
  | cons a rest ih =>
    rw [minTask] at h
    intro u hu
    cases hm : minTask rest with
    | none =>
      simp only [hm] at h
      cases h
      rcases List.mem_cons.mp hu with rfl | hur
      · exact taskLE_refl _
      · rw [minTask_none_iff] at hm
        rw [hm] at hur
        cases hur
    | some w =>
      simp only [hm] at h
      by_cases hle : (if a.is_tech_debt then 0 else 1 : Nat) <
          (if w.is_tech_debt then 0 else 1) ∨
          ((if a.is_tech_debt then 0 else 1 : Nat) =
            (if w.is_tech_debt then 0 else 1) ∧ a.id ≤ w.id)
      · rw [if_pos hle] at h
        cases h
        rcases List.mem_cons.mp hu with rfl | hur
        · exact taskLE_refl _
        · exact taskLE_trans hle (ih hm u hur)
      · rw [if_neg hle] at h
        cases h
        rcases List.mem_cons.mp hu with rfl | hur
        · exact taskLE_of_not hle
        · exact ih hm u hur

theorem minStory_none_iff (l : List Story) : minStory l = none ↔ l = [] := by
  cases l with
  | nil => simp [minStory]
  | cons s rest =>
    simp only [minStory]
    constructor
    · intro h
      cases hm : minStory rest with
      | none =>
        simp only [hm] at h
        cases h
      | some u =>
        simp only [hm] at h
        by_cases hle : s.priority < u.priority ∨
            (s.priority = u.priority ∧ s.id ≤ u.id)
        · rw [if_pos hle] at h; cases h
        · rw [if_neg hle] at h; cases h
    · intro h
      cases h

theorem minStory_mem {l : List Story} {s : Story}
    (h : minStory l = some s) : s ∈ l := by
  induction l generalizing s with
  | nil => cases h
  | cons a rest ih =>
    rw [minStory] at h
    cases hm : minStory rest with
    | none =>
      simp only [hm] at h
      cases h
      exact List.mem_cons_self _ _
    | some u =>
      simp only [hm] at h
      by_cases hle : a.priority < u.priority ∨
          (a.priority = u.priority ∧ a.id ≤ u.id)
      · rw [if_pos hle] at h
        cases h
        exact List.mem_cons_self _ _
      · rw [if_neg hle] at h
        cases h
        exact List.mem_cons_of_mem a (ih hm)

theorem minStory_min {l : List Story} {s : Story}
    (h : minStory l = some s) :
    ∀ u ∈ l, s.priority < u.priority ∨
      (s.priority = u.priority ∧ s.id ≤ u.id) := by
  induction l generalizing s with
  | nil => cases h
  | cons a rest ih =>
    rw [minStory] at h
    intro u hu
    cases hm : minStory rest with
    | none =>
      simp only [hm] at h
      cases h
      rcases List.mem_cons.mp hu with rfl | hur
      · omega
      · rw [minStory_none_iff] at hm
        rw [hm] at hur
        cases hur
    | some w =>
      simp only [hm] at h
      by_cases hle : a.priority < w.priority ∨
          (a.priority = w.priority ∧ a.id ≤ w.id)
      · rw [if_pos hle] at h
        cases h
        rcases List.mem_cons.mp hu with rfl | hur
        · omega
        · have := ih hm u hur
          omega
      · rw [if_neg hle] at h
        cases h
        rcases List.mem_cons.mp hu with rfl | hur
        · omega
        · exact ih hm u hur

theorem mem_sprintTaskPool {db : DB} {spid : Nat} {st : TaskStatus} {t : Task} :
    t ∈ sprintTaskPool db spid st ↔
      t ∈ db.tasks ∧ t.status = st ∧ taskInSprint db spid t := by
  unfold sprintTaskPool taskInSprint
  rw [List.mem_filter]
  constructor
  · intro ⟨h1, h2⟩
    have h3 := of_decide_eq_true h2
    exact ⟨h1, h3.1, h3.2⟩
  · intro ⟨h1, h2, h3⟩
    exact ⟨h1, decide_eq_true ⟨h2, h3⟩⟩

theorem find?_map_set_self (l : List Task) (t : Task) (ht : t ∈ l)
    (huniq : l.Pairwise (fun a b => a.id ≠ b.id)) (st : TaskStatus) :
    ((l.map (fun u => if u.id = t.id then { u with status := st } else u)).find?
      (fun u => u.id = t.id)) = some { t with status := st } := by
  induction l with
  | nil => cases ht
  | cons a rest ih =>
    rcases List.mem_cons.mp ht with rfl | htr
    · rw [List.map_cons, if_pos rfl, List.find?_cons_of_pos _ (by simp)]
    · have hane : a.id ≠ t.id := (List.pairwise_cons.mp huniq).1 t htr
      rw [List.map_cons, if_neg hane,
        List.find?_cons_of_neg _ (by simpa using hane)]
      exact ih htr (List.pairwise_cons.mp huniq).2

theorem statusOf_setTaskStatus_self (db : DB) {t : Task} (ht : t ∈ db.tasks)
    (huniq : db.tasks.Pairwise (fun a b => a.id ≠ b.id)) (st : TaskStatus) :
    statusOf (setTaskStatus db t.id st) t.id = some st := by
  unfold statusOf setTaskStatus
  rw [find?_map_set_self db.tasks t ht huniq st]
  rfl

end DevSprint

namespace DevSprint

theorem ifSync_statusOf (d : DB) (c : Prop) [Decidable c] (sid n : Nat) :
    statusOf (if c then syncStoryInDb d sid else d) n = statusOf d n := by
  split <;> rfl

theorem ifSync_taskIds (d : DB) (c : Prop) [Decidable c] (sid : Nat) :
    taskIds (if c then syncStoryInDb d sid else d) = taskIds d := by
  split <;> rfl

theorem pick_task_none_iff (db : DB) (spid : Nat) (st : TaskStatus) :
    pick_task db spid st = none ↔
      ¬ ∃ t ∈ db.tasks, t.status = st ∧ taskInSprint db spid t := by
  unfold pick_task
  rw [minTask_none_iff]
  constructor
  · intro h hex
    obtain ⟨t, h1, h2, h3⟩ := hex
    have hmem : t ∈ sprintTaskPool db spid st :=
      mem_sprintTaskPool.mpr ⟨h1, h2, h3⟩
    rw [h] at hmem
    cases hmem
  · intro h
    by_contra hne
    obtain ⟨x, hx⟩ := List.exists_mem_of_ne_nil _ hne
    have hx2 := mem_sprintTaskPool.mp hx
    exact h ⟨x, hx2.1, hx2.2.1, hx2.2.2⟩

end DevSprint

namespace DevSprint

theorem transition_branch_props (db : DB)
    (huniq : db.tasks.Pairwise (fun a b => a.id ≠ b.id))
    {spid : Nat} {st : TaskStatus} {t : Task}
    (hpick : pick_task db spid st = some t) (st' : TaskStatus) :
    t ∈ db.tasks ∧ t.status = st ∧ taskInSprint db spid t ∧
    (∀ u ∈ db.tasks, u.status = st → taskInSprint db spid u → taskLE t u) ∧
    statusOf (if ∃ s ∈ (setTaskStatus db t.id st').stories, s.id = t.story_id
        then syncStoryInDb (setTaskStatus db t.id st') t.story_id
        else setTaskStatus db t.id st') t.id = some st' ∧
    (∀ n : Nat, n ≠ t.id →
      statusOf (if ∃ s ∈ (setTaskStatus db t.id st').stories, s.id = t.story_id
        then syncStoryInDb (setTaskStatus db t.id st') t.story_id
        else setTaskStatus db t.id st') n = statusOf db n) ∧
    taskIds (if ∃ s ∈ (setTaskStatus db t.id st').stories, s.id = t.story_id
        then syncStoryInDb (setTaskStatus db t.id st') t.story_id
        else setTaskStatus db t.id st') = taskIds db := by
  unfold pick_task at hpick
  have hmem := minTask_mem hpick
  have hp := mem_sprintTaskPool.mp hmem
  have hmin := minTask_min hpick
  refine ⟨hp.1, hp.2.1, hp.2.2, ?_, ?_, ?_, ?_⟩
  · intro u hu h1 h2
    exact hmin u (mem_sprintTaskPool.mpr ⟨hu, h1, h2⟩)
  · rw [ifSync_statusOf]
    exact statusOf_setTaskStatus_self db hp.1 huniq st'
  · intro n hn
    rw [ifSync_statusOf]
    exact statusOf_setTaskStatus_ne db st' hn
  · rw [ifSync_taskIds, taskIds_setTaskStatus]

/-- C4. With pairwise-distinct task ids: the simulation step is a no-op
    when no ACTIVE sprint exists; otherwise it targets an ACTIVE sprint
    with the earliest start date and applies exactly the first matching
    rule — transition the minimal (tech-debt first, then lowest id)
    CODE_REVIEW task to DONE; else the minimal IN_PROGRESS task to
    CODE_REVIEW; else the minimal TODO task to IN_PROGRESS; else create a
    2-point TODO unassigned tech-debt task attached to the sprint's
    lowest-priority-number story, first creating a generic 5-point
    priority-1 tech-debt story when the sprint has none.  Transitions touch
    no other task and create no rows. -/
theorem simulate_progress_spec (db : DB)
    (huniq : db.tasks.Pairwise (fun a b => a.id ≠ b.id)) :
    (activeSprints db = [] → simulate_progress db = db) ∧
    (∀ sp, minSprint (activeSprints db) = some sp →
      (sp ∈ activeSprints db ∧
        ∀ q ∈ activeSprints db, sp.start_date ≤ q.start_date) ∧
      ((∃ t ∈ db.tasks, t.status = TaskStatus.CODE_REVIEW ∧
          taskInSprint db sp.id t) →
        ∃ t, t ∈ db.tasks ∧ t.status = TaskStatus.CODE_REVIEW ∧
          taskInSprint db sp.id t ∧
          (∀ u ∈ db.tasks, u.status = TaskStatus.CODE_REVIEW →
            taskInSprint db sp.id u → taskLE t u) ∧
          statusOf (simulate_progress db) t.id = some TaskStatus.DONE ∧
          (∀ n : Nat, n ≠ t.id →
            statusOf (simulate_progress db) n = statusOf db n) ∧
          taskIds (simulate_progress db) = taskIds db) ∧
      ((¬ ∃ t ∈ db.tasks, t.status = TaskStatus.CODE_REVIEW ∧
          taskInSprint db sp.id t) →
        (∃ t ∈ db.tasks, t.status = TaskStatus.IN_PROGRESS ∧
          taskInSprint db sp.id t) →
        ∃ t, t ∈ db.tasks ∧ t.status = TaskStatus.IN_PROGRESS ∧
          taskInSprint db sp.id t ∧
          (∀ u ∈ db.tasks, u.status = TaskStatus.IN_PROGRESS →
            taskInSprint db sp.id u → taskLE t u) ∧
          statusOf (simulate_progress db) t.id = some TaskStatus.CODE_REVIEW ∧
          (∀ n : Nat, n ≠ t.id →
            statusOf (simulate_progress db) n = statusOf db n) ∧
          taskIds (simulate_progress db) = taskIds db) ∧
      ((¬ ∃ t ∈ db.tasks, t.status = TaskStatus.CODE_REVIEW ∧
          taskInSprint db sp.id t) →
        (¬ ∃ t ∈ db.tasks, t.status = TaskStatus.IN_PROGRESS ∧
          taskInSprint db sp.id t) →
        (∃ t ∈ db.tasks, t.status = TaskStatus.TODO ∧
          taskInSprint db sp.id t) →
        ∃ t, t ∈ db.tasks ∧ t.status = TaskStatus.TODO ∧
          taskInSprint db sp.id t ∧
          (∀ u ∈ db.tasks, u.status = TaskStatus.TODO →
            taskInSprint db sp.id u → taskLE t u) ∧
          statusOf (simulate_progress db) t.id = some TaskStatus.IN_PROGRESS ∧
          (∀ n : Nat, n ≠ t.id →
            statusOf (simulate_progress db) n = statusOf db n) ∧
          taskIds (simulate_progress db) = taskIds db) ∧
      ((¬ ∃ t ∈ db.tasks, t.status = TaskStatus.CODE_REVIEW ∧
          taskInSprint db sp.id t) →
        (¬ ∃ t ∈ db.tasks, t.status = TaskStatus.IN_PROGRESS ∧
          taskInSprint db sp.id t) →
        (¬ ∃ t ∈ db.tasks, t.status = TaskStatus.TODO ∧
          taskInSprint db sp.id t) →
        ∃ tNew : Task, (simulate_progress db).tasks = db.tasks ++ [tNew] ∧
          tNew.status = TaskStatus.TODO ∧ tNew.story_points = 2 ∧
          tNew.is_tech_debt = true ∧ tNew.assignee = none ∧
          (sprintStories db sp.id ≠ [] →
            ∃ st0, st0 ∈ sprintStories db sp.id ∧
              (∀ u ∈ sprintStories db sp.id, st0.priority < u.priority ∨
                (st0.priority = u.priority ∧ st0.id ≤ u.id)) ∧
              tNew.story_id = st0.id ∧
              (simulate_progress db).stories = db.stories) ∧
          (sprintStories db sp.id = [] →
            ∃ sNew : Story,
              (simulate_progress db).stories = db.stories ++ [sNew] ∧
              tNew.story_id = sNew.id ∧ sNew.sprint_id = some sp.id ∧
              sNew.story_points = 5 ∧ sNew.priority = 1 ∧
              sNew.is_tech_debt = true))) := by
  constructor
  · intro hnone
    unfold simulate_progress
    simp only [(minSprint_none_iff (activeSprints db)).mpr hnone]
  · intro sp hms
    refine ⟨⟨minSprint_mem hms, minSprint_min hms⟩, ?_, ?_, ?_, ?_⟩
    · intro hP
      cases hcr : pick_task db sp.id TaskStatus.CODE_REVIEW with
      | none => exact absurd hP ((pick_task_none_iff db sp.id _).mp hcr)
      | some t =>
        have hsim : simulate_progress db =
            (if ∃ s ∈ (setTaskStatus db t.id TaskStatus.DONE).stories,
                s.id = t.story_id
             then syncStoryInDb (setTaskStatus db t.id TaskStatus.DONE)
               t.story_id
             else setTaskStatus db t.id TaskStatus.DONE) := by
          unfold simulate_progress
          simp only [hms, hcr]
        rw [hsim]
        obtain ⟨h1, h2, h3, h4, h5, h6, h7⟩ :=
          transition_branch_props db huniq hcr TaskStatus.DONE
        exact ⟨t, h1, h2, h3, h4, h5, h6, h7⟩
    · intro hnCR hP
      have hcr : pick_task db sp.id TaskStatus.CODE_REVIEW = none :=
        (pick_task_none_iff db sp.id _).mpr hnCR
      cases hip : pick_task db sp.id TaskStatus.IN_PROGRESS with
      | none => exact absurd hP ((pick_task_none_iff db sp.id _).mp hip)
      | some t =>
        have hsim : simulate_progress db =
            (if ∃ s ∈ (setTaskStatus db t.id TaskStatus.CODE_REVIEW).stories,
                s.id = t.story_id
             then syncStoryInDb (setTaskStatus db t.id TaskStatus.CODE_REVIEW)
               t.story_id
             else setTaskStatus db t.id TaskStatus.CODE_REVIEW) := by
          unfold simulate_progress
          simp only [hms, hcr, hip]
        rw [hsim]
        obtain ⟨h1, h2, h3, h4, h5, h6, h7⟩ :=
          transition_branch_props db huniq hip TaskStatus.CODE_REVIEW
        exact ⟨t, h1, h2, h3, h4, h5, h6, h7⟩
    · intro hnCR hnIP hP
      have hcr : pick_task db sp.id TaskStatus.CODE_REVIEW = none :=
        (pick_task_none_iff db sp.id _).mpr hnCR
      have hip : pick_task db sp.id TaskStatus.IN_PROGRESS = none :=
        (pick_task_none_iff db sp.id _).mpr hnIP
      cases htd : pick_task db sp.id TaskStatus.TODO with
      | none => exact absurd hP ((pick_task_none_iff db sp.id _).mp htd)
      | some t =>
        have hsim : simulate_progress db =
            (if ∃ s ∈ (setTaskStatus db t.id TaskStatus.IN_PROGRESS).stories,
                s.id = t.story_id
             then syncStoryInDb (setTaskStatus db t.id TaskStatus.IN_PROGRESS)
               t.story_id
             else setTaskStatus db t.id TaskStatus.IN_PROGRESS) := by
          unfold simulate_progress
          simp only [hms, hcr, hip, htd]
        rw [hsim]
        obtain ⟨h1, h2, h3, h4, h5, h6, h7⟩ :=
          transition_branch_props db huniq htd TaskStatus.IN_PROGRESS
        exact ⟨t, h1, h2, h3, h4, h5, h6, h7⟩
    · intro hnCR hnIP hnTD
      have hcr : pick_task db sp.id TaskStatus.CODE_REVIEW = none :=
        (pick_task_none_iff db sp.id _).mpr hnCR
      have hip : pick_task db sp.id TaskStatus.IN_PROGRESS = none :=
        (pick_task_none_iff db sp.id _).mpr hnIP
      have htd : pick_task db sp.id TaskStatus.TODO = none :=
        (pick_task_none_iff db sp.id _).mpr hnTD
      have hsim : simulate_progress db = ensure_tech_debt_task db sp.id := by
        unfold simulate_progress
        simp only [hms, hcr, hip, htd]
      rw [hsim]
      cases hstory : minStory (sprintStories db sp.id) with
      | some st0 =>
        have hens : ensure_tech_debt_task db sp.id =
            { db with
                tasks := db.tasks ++ [⟨db.next_id, st0.id, "处理技术债务项",
                  TaskStatus.TODO, 2, true, none⟩],
                next_id := db.next_id + 1 } := by
          unfold ensure_tech_debt_task
          simp only [hstory]
        rw [hens]
        refine ⟨⟨db.next_id, st0.id, "处理技术债务项", TaskStatus.TODO, 2,
          true, none⟩, rfl, rfl, rfl, rfl, rfl, ?_, ?_⟩
        · intro _
          exact ⟨st0, minStory_mem hstory, minStory_min hstory, rfl, rfl⟩
        · intro hnil
          rw [hnil] at hstory
          simp [minStory] at hstory
      | none =>
        have hnil : sprintStories db sp.id = [] :=
          (minStory_none_iff _).mp hstory
        have hens : ensure_tech_debt_task db sp.id =
            { db with
                stories := db.stories ++ [⟨db.next_id, some sp.id,
                  "Tech Debt Fixes", 5, 1, true, StoryStatus.PLANNED⟩],
                tasks := db.tasks ++ [⟨db.next_id + 1, db.next_id,
                  "处理技术债务项", TaskStatus.TODO, 2, true, none⟩],
                next_id := db.next_id + 2 } := by
          unfold ensure_tech_debt_task
          simp only [hstory]
        rw [hens]
        refine ⟨⟨db.next_id + 1, db.next_id, "处理技术债务项",
          TaskStatus.TODO, 2, true, none⟩, rfl, rfl, rfl, rfl, rfl, ?_, ?_⟩
        · intro hne
          exact absurd hnil hne
        · intro _
          exact ⟨⟨db.next_id, some sp.id, "Tech Debt Fixes", 5, 1, true,
            StoryStatus.PLANNED⟩, rfl, rfl, rfl, rfl, rfl, rfl⟩

/-- Witness for C4: in `dbSim` the single TODO task is transitioned to
    IN_PROGRESS. -/
theorem simulate_progress_spec_witness :
    ∃ t, t ∈ dbSim.tasks ∧ t.status = TaskStatus.TODO ∧
      taskInSprint dbSim 1 t ∧
      (∀ u ∈ dbSim.tasks, u.status = TaskStatus.TODO →
        taskInSprint dbSim 1 u → taskLE t u) ∧
      statusOf (simulate_progress dbSim) t.id = some TaskStatus.IN_PROGRESS ∧
      (∀ n : Nat, n ≠ t.id →
        statusOf (simulate_progress dbSim) n = statusOf dbSim n) ∧
      taskIds (simulate_progress dbSim) = taskIds dbSim :=
  ((simulate_progress_spec dbSim (by decide)).2
    ⟨1, "S", 0, 7, SprintStatus.ACTIVE⟩ (by decide)).2.2.2.1
    (by unfold taskInSprint; decide) (by unfold taskInSprint; decide)
    (by exact ⟨⟨1, 1, "T", TaskStatus.TODO, 5, false, none⟩, by decide,
      rfl, ⟨⟨1, some 1, "A", 5, 1, false, StoryStatus.PLANNED⟩,
        by decide, rfl, rfl⟩⟩)

end DevSprint
